import Mathlib

/-!
Verification of the query and aggregation layer of the frateto repository
(`src/queries.py`): a set of parameterized read-only queries over a
pre-built SQLite store of European Parliament roll-call votes.

The store is embedded as lists of rows (one structure per table, fields as
in the schema built by `db_stuff/howTheyVote.py`).  Each Python query
function becomes a Lean function from a connection and its arguments to an
`Except`-value: `Except.error` models a Python exception propagating to the
caller, while `Except.ok` carries the returned dict, itself modelled as a
tagged union (one constructor per distinct dict shape the function can
return, one field per dict key).  A connection is `Except String Store`:
`Except.error msg` models a store whose use raises an exception with
message `msg` (as `sqlite3.connect`/`execute` can), `Except.ok db` a
healthy store with contents `db`.

SQL is translated construct by construct: `WHERE` becomes `List.filter`,
joins become `flatMap` over matching rows (`LEFT JOIN` yielding a single
`none` row when nothing matches), `GROUP BY` groups by the key tuple,
window sums partition the grouped rows, `ORDER BY` is `insertionSort` by
the corresponding lexicographic relation (SQL leaves tie order open; the
sort fixes one admissible order), `LIMIT` is `take` (negative limits,
which SQLite treats as no limit, keep the whole list).  Numeric SQL
expressions are computed in `ℚ`; SQLite `ROUND(x, 2)` is rounding half
away from zero, Python `round` is rounding half to even.
-/

namespace Frateto

/-- Voting position of a member in a roll-call vote; `member_votes.position`
takes exactly these four values. -/
inductive Position where
  | FOR
  | AGAINST
  | ABSTENTION
  | DID_NOT_VOTE
deriving DecidableEq

instance : Fintype Position where
  elems := {Position.FOR, Position.AGAINST, Position.ABSTENTION, Position.DID_NOT_VOTE}
  complete := by intro p; cases p <;> decide

/-- Row of the `votes` table. -/
structure Vote where
  id : Int
  timestamp : String
  display_title : String
  reference : String
  description : String
  is_main : Bool
  procedure_reference : String
  procedure_title : String
  procedure_type : String
  procedure_stage : String
  count_for : Int
  count_against : Int
  count_abstention : Int
  count_did_not_vote : Int
  result : String
deriving DecidableEq

/-- Row of the `members` table. -/
structure Member where
  id : Int
  first_name : String
  last_name : String
  country_code : String
  date_of_birth : String
  email : String
  facebook : String
  twitter : String
deriving DecidableEq

/-- Row of the `countries` table; `code` is the primary key. -/
structure Country where
  code : String
  iso_alpha_2 : String
  label : String
deriving DecidableEq

/-- Row of the `groups` table; `code` is the primary key. -/
structure Group where
  code : String
  official_label : String
  label : String
  short_label : String
deriving DecidableEq

/-- Row of the `group_memberships` table.  `end_date` is nullable (open
memberships). -/
structure GroupMembership where
  member_id : Int
  group_code : String
  term : Int
  start_date : String
  end_date : Option String
deriving DecidableEq

/-- Row of the `member_votes` table; `group_code` is nullable and is the
group at the time of the vote. -/
structure MemberVote where
  vote_id : Int
  member_id : Int
  position : Position
  country_code : String
  group_code : Option String
deriving DecidableEq

/-- Row of the `eurovoc_concepts` table; `id` is the primary key. -/
structure EurovocConcept where
  id : String
  label : String
deriving DecidableEq

/-- Row of the `eurovoc_concept_votes` junction table. -/
structure EurovocConceptVote where
  vote_id : Int
  eurovoc_concept_id : String
deriving DecidableEq

/-- The relational store: the tables of `parliament_votes.db` that the
query library reads (the remaining junction tables are never touched by
any of the nine functions). -/
structure Store where
  votes : List Vote
  members : List Member
  countries : List Country
  groups : List Group
  group_memberships : List GroupMembership
  member_votes : List MemberVote
  eurovoc_concepts : List EurovocConcept
  eurovoc_concept_votes : List EurovocConceptVote
deriving DecidableEq

/-- A connection attempt: `Except.error msg` models the underlying store
raising an exception with message `msg`, `Except.ok db` a working store. -/
abbrev Conn := Except String Store

/-- True exactly on `Except.ok`; models "the call returned normally". -/
def exceptOk {ε α : Type} : Except ε α → Bool
  | Except.ok _ => true
  | Except.error _ => false

/-- A single-quote character as a string (used inside messages built by the
Python source with f-strings). -/
def sq : String := String.singleton (Char.ofNat 39)

/-- SQLite `ROUND(num * 100.0 / den, 2)` represented exactly as an integer
count of hundredths of a percentage point: for `0 < den` this is
`⌊10000 * num / den + 1/2⌋` (round half up, which agrees with SQLite's
round-half-away-from-zero on the nonnegative values the queries produce).
All percentage columns of the model carry this integer; the SQL value is
this divided by `100`. -/
def round2h (num den : Int) : Int := (20000 * num + den) / (2 * den)

/-- Strict byte-wise (codepoint-lexicographic) comparison of character
lists, SQLite's BINARY collation used by `ORDER BY` on TEXT columns. -/
def strLtL : List Char → List Char → Bool
  | [], [] => false
  | [], _ :: _ => true
  | _ :: _, [] => false
  | a :: as, b :: bs =>
    if a.toNat < b.toNat then true
    else if b.toNat < a.toNat then false
    else strLtL as bs

/-- Reflexive byte-wise comparison of character lists. -/
def strLeL : List Char → List Char → Bool
  | [], _ => true
  | _ :: _, [] => false
  | a :: as, b :: bs =>
    if a.toNat < b.toNat then true
    else if b.toNat < a.toNat then false
    else strLeL as bs

/-- SQLite TEXT comparison `a < b`. -/
def strLt (a b : String) : Bool := strLtL a.toList b.toList

/-- SQLite TEXT comparison `a <= b`. -/
def strLe (a b : String) : Bool := strLeL a.toList b.toList

/-- SQL `MIN(..)` over a list of non-NULL TEXT values: NULL on an empty
result set (as in the participation-rate subquery of `get_mep_details`
when the member has no group membership). -/
def minStr? : List String → Option String
  | [] => none
  | a :: t => some (t.foldl (fun m s => if strLe s m then s else m) a)


/-- Python `round(x, k)`: round half to even at `k` decimals. -/
def pyRoundAt (k : Nat) (x : ℚ) : ℚ :=
  let m : ℚ := (10 : ℚ) ^ k
  let n : Int := ⌊x * m⌋
  let f : ℚ := x * m - (n : ℚ)
  if f < 1 / 2 then (n : ℚ) / m
  else if 1 / 2 < f then ((n + 1 : Int) : ℚ) / m
  else (if n % 2 = 0 then (n : ℚ) else ((n + 1 : Int) : ℚ)) / m

/-- SQLite `LIMIT n`: a negative `n` means no limit. -/
def sqlLimit {α : Type} (n : Int) (l : List α) : List α :=
  if n < 0 then l else l.take n.toNat

/-- ASCII lower-casing of a character, the folding used by SQLite `LIKE`. -/
def asciiLower (c : Char) : Char :=
  if 'A' ≤ c ∧ c ≤ 'Z' then Char.ofNat (c.toNat + 32) else c

/-- SQLite `LIKE` pattern matching on character lists: `%` matches any
sequence (tried as every split of the remaining text), `_` any single
character, other characters compare ASCII-case-insensitively. -/
def likeMatch : List Char → List Char → Bool
  | [], s => s.isEmpty
  | p :: ps, s =>
    if p = '%' then s.tails.any (fun t => likeMatch ps t)
    else
      match s with
      | [] => false
      | c :: s2 =>
        (if p = '_' then true else (asciiLower p = asciiLower c : Bool)) && likeMatch ps s2

/-- SQLite `column LIKE ?` with parameter `"%" + kw + "%"`, as issued by
`search_votes_by_topic` and `search_meps`. -/
def likeContains (kw s : String) : Bool :=
  likeMatch ('%' :: (kw.toList ++ ['%'])) s.toList

/-- Insert-or-update on an insertion-ordered association list, the
behavior of Python dict assignment: an existing key keeps its place, a new
key is appended at the end. -/
def upsert {κ ν : Type} [DecidableEq κ] (k : κ) (f : Option ν → ν) :
    List (κ × ν) → List (κ × ν)
  | [] => [(k, f none)]
  | (k2, v) :: t => if k = k2 then (k2, f (some v)) :: t else (k2, v) :: upsert k f t

/-- Lookup in an association list (Python dict read). -/
def alookup {κ ν : Type} [DecidableEq κ] (k : κ) : List (κ × ν) → Option ν
  | [] => none
  | (k2, v) :: t => if k = k2 then some v else alookup k t

/-- Success dict of `get_vote_details` (one field per key). -/
structure VoteDetailsOk where
  vote_id : Int
  title : String
  timestamp : String
  procedure_title : String
  procedure_type : String
  votes_for : Int
  votes_against : Int
  abstentions : Int
  did_not_vote : Int
  result : String
  description : String
  is_main_vote : Bool
  policy_topics : String
  total_participating : Int
deriving DecidableEq

/-- Return value of `get_vote_details`: either the single-key error dict or
the full details dict. -/
inductive VoteDetailsResult where
  | failure (msg : String)
  | found (d : VoteDetailsOk)
deriving DecidableEq

/-- Labels of the eurovoc concepts linked to a vote, in table order.  This
is what `GROUP_CONCAT(ec.label, ..)` aggregates after the two LEFT JOINs:
junction rows whose concept id has no `eurovoc_concepts` row contribute a
NULL label, which `GROUP_CONCAT` skips. -/
def topicLabels (db : Store) (vid : Int) : List String :=
  (db.eurovoc_concept_votes.filter (fun l => decide (l.vote_id = vid))).flatMap
    (fun l => (db.eurovoc_concepts.filter (fun c => decide (c.id = l.eurovoc_concept_id))).map
      (fun c => c.label))

/-- Python `get_vote_details(vote_id)`. -/
def get_vote_details (conn : Conn) (vote_id : Int) : Except String VoteDetailsResult :=
  match conn with
  | Except.error e => Except.ok (.failure ("Database error: " ++ e))
  | Except.ok db =>
    match db.votes.find? (fun v => decide (v.id = vote_id)) with
    | none => Except.ok (.failure ("Vote " ++ toString vote_id ++ " not found"))
    | some v =>
      let labels := topicLabels db vote_id
      Except.ok (.found
        { vote_id := v.id
          title := v.display_title
          timestamp := v.timestamp
          procedure_title := v.procedure_title
          procedure_type := v.procedure_type
          votes_for := v.count_for
          votes_against := v.count_against
          abstentions := v.count_abstention
          did_not_vote := v.count_did_not_vote
          result := v.result
          description := v.description
          is_main_vote := v.is_main
          policy_topics :=
            if labels = [] then "No topics available" else String.intercalate "; " labels
          total_participating := v.count_for + v.count_against + v.count_abstention })

/-- The absolute margin `ABS(count_for - count_against)` of a vote. -/
def voteMargin (v : Vote) : Int := |v.count_for - v.count_against|

/-- The `margin_percentage` column of `get_controversial_votes`,
`ROUND(ABS(count_for - count_against) * 100.0 / (count_for + count_against), 2)`,
in hundredths.  The SQL guards the division with `NULLIF(.., 0)`; the
`WHERE` clause makes the denominator positive on every row this is
evaluated on. -/
def voteMarginPct (v : Vote) : Int :=
  round2h (voteMargin v) (v.count_for + v.count_against)

/-- The `ORDER BY margin_percentage ASC, margin ASC` relation of
`get_controversial_votes`. -/
def contLe (v w : Vote) : Prop :=
  voteMarginPct v < voteMarginPct w ∨
    (voteMarginPct v = voteMarginPct w ∧ voteMargin v ≤ voteMargin w)

instance : DecidableRel contLe := fun v w => by unfold contLe; infer_instance

/-- Row dict of the `controversial_votes` list; `margin_percentage` is in
hundredths of a percentage point (see `round2h`). -/
structure ContRow where
  vote_id : Int
  title : String
  timestamp : String
  votes_for : Int
  votes_against : Int
  abstentions : Int
  vote_margin : Int
  margin_percentage : Int
  result : String
deriving DecidableEq

/-- Success dict of `get_controversial_votes`. -/
structure ControversialOk where
  controversial_votes : List ContRow
  count : Nat
  explanation : String
deriving DecidableEq

/-- Return value of `get_controversial_votes`. -/
inductive ControversialResult where
  | failure (msg : String)
  | found (d : ControversialOk)
deriving DecidableEq

/-- Python `get_controversial_votes(limit)`. -/
def get_controversial_votes (conn : Conn) (limit : Int) :
    Except String ControversialResult :=
  match conn with
  | Except.error e => Except.ok (.failure ("Database error: " ++ e))
  | Except.ok db =>
    let rows :=
      sqlLimit limit
        (List.insertionSort contLe
          (db.votes.filter (fun v => decide (0 < v.count_for) && decide (0 < v.count_against))))
    let out := rows.map (fun v =>
      { vote_id := v.id
        title := v.display_title
        timestamp := v.timestamp
        votes_for := v.count_for
        votes_against := v.count_against
        abstentions := v.count_abstention
        vote_margin := voteMargin v
        margin_percentage := voteMarginPct v
        result := v.result : ContRow })
    Except.ok (.found
      { controversial_votes := out
        count := out.length
        explanation := "Votes ordered by smallest margin between FOR and AGAINST votes" })

/-- Return dict of `search_meps`: the raw member rows.  The function has no
try/except, so a store error is not caught (no failure constructor is
reachable from a healthy store, and an unhealthy store propagates). -/
structure SearchMepsOk where
  meps : List Member
deriving DecidableEq

/-- Python `search_meps(name)`: note the missing try/except in the source;
an exception from the store propagates to the caller. -/
def search_meps (conn : Conn) (name : String) : Except String SearchMepsOk :=
  match conn with
  | Except.error e => Except.error e
  | Except.ok db =>
    Except.ok
      { meps := db.members.filter
          (fun m => likeContains name m.first_name || likeContains name m.last_name) }

/-- The `ORDER BY timestamp DESC` relation on votes (BINARY collation on
the TEXT timestamp column). -/
def voteTsDesc (v w : Vote) : Prop := strLe w.timestamp v.timestamp = true

instance : DecidableRel voteTsDesc := fun v w => by unfold voteTsDesc; infer_instance

/-- Return dict of `get_recent_votes`: the full vote rows, most recent
first. -/
structure RecentVotesOk where
  recent_votes : List Vote
deriving DecidableEq

/-- Python `get_recent_votes(limit)`: like `search_meps` it has no
try/except, so a store error propagates to the caller. -/
def get_recent_votes (conn : Conn) (limit : Int) : Except String RecentVotesOk :=
  match conn with
  | Except.error e => Except.error e
  | Except.ok db =>
    Except.ok { recent_votes := sqlLimit limit (List.insertionSort voteTsDesc db.votes) }

/-- A row of the joined result set feeding the two breakdown queries,
before grouping: the grouping label (`COALESCE(g.label, ..)` resp.
`c.label`), the secondary label (`COALESCE(g.short_label, ..)` resp.
`c.code`), the position, and the window partition key
(`COALESCE(mv.group_code, ..)` resp. `c.code`). -/
structure JRow where
  label : String
  second : String
  pos : Position
  pkey : String
deriving DecidableEq

/-- The `GROUP BY` key tuple of the breakdown queries. -/
def keyOf (r : JRow) : String × String × Position := (r.label, r.second, r.pos)

/-- One grouped row: key tuple, `COUNT(*)`, and the partition key the
window aggregate sees for this row.  With `GROUP BY`, SQLite evaluates the
window expression on a representative row of each group; the model takes
the first row of the group (on every store considered by the theorems all
rows of a group agree on `pkey`, so the choice is immaterial there). -/
structure GroupedRow where
  label : String
  second : String
  pos : Position
  count : Nat
  pkey : String
deriving DecidableEq

/-- The `GROUP BY label, second, position` step with `COUNT(*)`. -/
def groupRows (rows : List JRow) : List GroupedRow :=
  ((rows.map keyOf).dedup).map (fun k =>
    let sel := rows.filter (fun r => decide (keyOf r = k))
    { label := k.1
      second := k.2.1
      pos := k.2.2
      count := sel.length
      pkey := match sel.head? with | some r => r.pkey | none => "" })

/-- `SUM(COUNT(*)) OVER (PARTITION BY pkey)` evaluated at partition key
`p` over the grouped rows. -/
def partTotal (gs : List GroupedRow) (p : String) : Nat :=
  ((gs.filter (fun h => decide (h.pkey = p))).map (fun h => h.count)).sum

/-- A grouped row together with its window percentage
`ROUND(COUNT(*) * 100.0 / SUM(COUNT(*)) OVER (PARTITION BY pkey), 2)`, in
hundredths (see `round2h`). -/
structure PctRow where
  label : String
  second : String
  pos : Position
  count : Nat
  pct : Int
deriving DecidableEq

/-- Attach the window percentage to every grouped row. -/
def withPct (gs : List GroupedRow) : List PctRow :=
  gs.map (fun g =>
    { label := g.label
      second := g.second
      pos := g.pos
      count := g.count
      pct := round2h (g.count : Int) (partTotal gs g.pkey : Int) })

/-- Display rank of a position, the `CASE mv.position .. END` expression
of the breakdown `ORDER BY`. -/
def posIdx : Position → Nat
  | .FOR => 1
  | .AGAINST => 2
  | .ABSTENTION => 3
  | .DID_NOT_VOTE => 4

/-- The breakdown `ORDER BY label, CASE position .. END` relation. -/
def breakdownLe (a b : PctRow) : Prop :=
  strLt a.label b.label = true ∨ (a.label = b.label ∧ posIdx a.pos ≤ posIdx b.pos)

instance : DecidableRel breakdownLe := fun a b => by unfold breakdownLe; infer_instance

/-- The full SQL pipeline of a breakdown query: group, window, order. -/
def orderedRows (rows : List JRow) : List PctRow :=
  List.insertionSort breakdownLe (withPct (groupRows rows))

/-- Value dict under one position key of a breakdown entry; `percentage`
is in hundredths (see `round2h`). -/
structure PosEntry where
  count : Nat
  percentage : Int
deriving DecidableEq

/-- Per-label entry of the Python reshaping loop: secondary label
(`group_short_name` resp. `country_code`), positions dict, and running
total (`total_meps`). -/
structure BEntry where
  second : String
  positions : List (Position × PosEntry)
  total : Nat
deriving DecidableEq

/-- The update a single SQL result row applies to its label's entry in
the Python reshaping loop: a missing entry is created with the row's
secondary label, `positions[position]` is assigned (overwriting any
earlier value under the same label and position), `total` accumulates. -/
def stepEntry (e? : Option BEntry) (r : PctRow) : BEntry :=
  let e0 := match e? with
    | some e => e
    | none => { second := r.second, positions := [], total := 0 : BEntry }
  { second := e0.second
    positions := upsert r.pos (fun _ => { count := r.count, percentage := r.pct }) e0.positions
    total := e0.total + r.count }

/-- One iteration of the Python loop that reshapes the SQL result rows
into a dict keyed by label. -/
def addRow (acc : List (String × BEntry)) (r : PctRow) : List (String × BEntry) :=
  upsert r.label (fun e? => stepEntry e? r) acc

/-- The result rows carrying a given label, in order. -/
def rowsFor (L : String) (rows : List PctRow) : List PctRow :=
  rows.filter (fun r => decide (r.label = L))

/-- The whole reshaping loop. -/
def buildBreakdown (rows : List PctRow) : List (String × BEntry) :=
  rows.foldl addRow []

/-- Sum of the `count` values over one entry's positions dict. -/
def posTotal (e : BEntry) : Nat := (e.positions.map (fun q => q.2.count)).sum

/-- Sum of the `percentage` values (in hundredths) over one entry's
positions dict. -/
def pctTotal (e : BEntry) : Int := (e.positions.map (fun q => q.2.percentage)).sum

/-- Sum of all reported position counts of a breakdown. -/
def sumCounts (b : List (String × BEntry)) : Nat :=
  (b.map (fun p => posTotal p.2)).sum

/-- The joined rows of `get_group_voting_breakdown`:
`member_votes LEFT JOIN groups ON mv.group_code = g.code` restricted to
the vote, with `COALESCE(g.label, ..)`, `COALESCE(g.short_label, ..)` and
partition key `COALESCE(mv.group_code, ..)`.  A NULL `group_code` matches
no group. -/
def groupJoinRows (db : Store) (vid : Int) : List JRow :=
  (db.member_votes.filter (fun mv => decide (mv.vote_id = vid))).flatMap (fun mv =>
    let pk := match mv.group_code with | some c => c | none => "NI"
    match db.groups.filter (fun g => decide (mv.group_code = some g.code)) with
    | [] => [{ label := "Non-attached", second := "NI", pos := mv.position, pkey := pk }]
    | gs => gs.map (fun g =>
        { label := g.label, second := g.short_label, pos := mv.position, pkey := pk }))

/-- Success dict of `get_group_voting_breakdown`. -/
structure GroupBreakdownOk where
  vote_id : Int
  vote_title : String
  vote_timestamp : String
  group_breakdown : List (String × BEntry)
  explanation : String
deriving DecidableEq

/-- Return value of `get_group_voting_breakdown`. -/
inductive GroupBreakdownResult where
  | failure (msg : String)
  | found (d : GroupBreakdownOk)
deriving DecidableEq

/-- Python `get_group_voting_breakdown(vote_id)`. -/
def get_group_voting_breakdown (conn : Conn) (vote_id : Int) :
    Except String GroupBreakdownResult :=
  match conn with
  | Except.error e => Except.ok (.failure ("Database error: " ++ e))
  | Except.ok db =>
    match db.votes.find? (fun v => decide (v.id = vote_id)) with
    | none => Except.ok (.failure ("Vote " ++ toString vote_id ++ " not found"))
    | some v =>
      Except.ok (.found
        { vote_id := vote_id
          vote_title := v.display_title
          vote_timestamp := v.timestamp
          group_breakdown := buildBreakdown (orderedRows (groupJoinRows db vote_id))
          explanation :=
            "Shows how MEPs from each political group voted (groups as they were at time of vote)" })

/-- The joined rows of `get_country_voting_patterns`:
`member_votes JOIN members JOIN countries` restricted to the vote, grouped
by `(c.label, c.code, position)` with partition key `c.code`.  Both joins
are inner: a row whose member or country is missing is dropped. -/
def countryJoinRows (db : Store) (vid : Int) : List JRow :=
  (db.member_votes.filter (fun mv => decide (mv.vote_id = vid))).flatMap (fun mv =>
    (db.members.filter (fun m => decide (m.id = mv.member_id))).flatMap (fun m =>
      (db.countries.filter (fun c => decide (c.code = m.country_code))).map (fun c =>
        { label := c.label, second := c.code, pos := mv.position, pkey := c.code })))

/-- Success dict of `get_country_voting_patterns`. -/
structure CountryPatternsOk where
  vote_id : Int
  vote_title : String
  country_breakdown : List (String × BEntry)
  explanation : String
deriving DecidableEq

/-- Return value of `get_country_voting_patterns`. -/
inductive CountryPatternsResult where
  | failure (msg : String)
  | found (d : CountryPatternsOk)
deriving DecidableEq

/-- Python `get_country_voting_patterns(vote_id)`. -/
def get_country_voting_patterns (conn : Conn) (vote_id : Int) :
    Except String CountryPatternsResult :=
  match conn with
  | Except.error e => Except.ok (.failure ("Database error: " ++ e))
  | Except.ok db =>
    match db.votes.find? (fun v => decide (v.id = vote_id)) with
    | none => Except.ok (.failure ("Vote " ++ toString vote_id ++ " not found"))
    | some v =>
      Except.ok (.found
        { vote_id := vote_id
          vote_title := v.display_title
          country_breakdown := buildBreakdown (orderedRows (countryJoinRows db vote_id))
          explanation := "Shows how MEPs from each EU country voted" })

/-- The labels of the eurovoc concepts of vote `vid` whose label matches
`LIKE %kw%`, in table order: the join rows surviving the `WHERE` clause of
`search_votes_by_topic`. -/
def matchingLabels (db : Store) (kw : String) (vid : Int) : List String :=
  (db.eurovoc_concept_votes.filter (fun l => decide (l.vote_id = vid))).flatMap
    (fun l => (db.eurovoc_concepts.filter
        (fun c => decide (c.id = l.eurovoc_concept_id) && likeContains kw c.label)).map
      (fun c => c.label))

/-- Row dict of the `votes` list returned by `search_votes_by_topic`. -/
structure TopicRow where
  vote_id : Int
  title : String
  timestamp : String
  result : String
  votes_for : Int
  votes_against : Int
  abstentions : Int
  participating_meps : Nat
  related_topics : String
deriving DecidableEq

/-- Empty-result dict of `search_votes_by_topic`: success-shaped, carries
a message and no error key. -/
structure TopicEmpty where
  topic_keyword : String
  votes : List TopicRow
  count : Nat
  message : String
deriving DecidableEq

/-- Success dict of `search_votes_by_topic`. -/
structure TopicOk where
  topic_keyword : String
  votes : List TopicRow
  count : Nat
  explanation : String
deriving DecidableEq

/-- Return value of `search_votes_by_topic`. -/
inductive TopicSearchResult where
  | failure (msg : String)
  | noMatches (d : TopicEmpty)
  | found (d : TopicOk)
deriving DecidableEq

/-- Python `search_votes_by_topic(topic_keyword)`. -/
def search_votes_by_topic (conn : Conn) (topic_keyword : String) :
    Except String TopicSearchResult :=
  match conn with
  | Except.error e => Except.ok (.failure ("Database error: " ++ e))
  | Except.ok db =>
    let rows :=
      sqlLimit 20
        (List.insertionSort voteTsDesc
          (db.votes.filter (fun v => decide (matchingLabels db topic_keyword v.id ≠ []))))
    if rows = [] then
      Except.ok (.noMatches
        { topic_keyword := topic_keyword
          votes := []
          count := 0
          message := "No votes found related to " ++ sq ++ topic_keyword ++ sq })
    else
      let out := rows.map (fun v =>
        { vote_id := v.id
          title := v.display_title
          timestamp := v.timestamp
          result := v.result
          votes_for := v.count_for
          votes_against := v.count_against
          abstentions := v.count_abstention
          participating_meps :=
            (((db.member_votes.filter (fun mv => decide (mv.vote_id = v.id))).map
              (fun mv => mv.member_id)).dedup).length
          related_topics :=
            String.intercalate "; " ((matchingLabels db topic_keyword v.id).dedup) : TopicRow })
      Except.ok (.found
        { topic_keyword := topic_keyword
          votes := out
          count := out.length
          explanation :=
            "Votes related to " ++ sq ++ topic_keyword ++ sq ++ " ordered by most recent first" })

/-- `LEFT JOIN groups g ON code = g.code` for one left row: all matching
group rows, or a single NULL row when none matches (a NULL code matches
nothing). -/
def leftJoin1 (gs : List Group) (code? : Option String) : List (Option Group) :=
  match gs.filter (fun g => decide (code? = some g.code)) with
  | [] => [none]
  | l => l.map some

/-- Python `row or "Non-attached"` applied to a nullable label: both NULL
and the empty string fall back to the sentinel. -/
def orNonAttached (s? : Option String) : String :=
  match s? with
  | none => "Non-attached"
  | some s => if s = "" then "Non-attached" else s

/-- Row dict of the `recent_votes` list of `get_mep_voting_history`. -/
structure HistRow where
  vote_id : Int
  vote_title : String
  timestamp : String
  mep_position : Position
  procedure_title : String
  procedure_type : String
  vote_result : String
  total_for : Int
  total_against : Int
  total_abstention : Int
  mep_group_at_time : Option String
  group_name : String
deriving DecidableEq

/-- The `ORDER BY v.timestamp DESC` relation on history rows. -/
def histTsDesc (a b : HistRow) : Prop := strLe b.timestamp a.timestamp = true

instance : DecidableRel histTsDesc := fun a b => by unfold histTsDesc; infer_instance

/-- The Python loop building `position_counts`: a dict histogram over the
returned window of votes (`position_counts.get(pos, 0) + 1`). -/
def histo (ps : List Position) : List (Position × Nat) :=
  ps.foldl (fun acc p => upsert p (fun n? => n?.getD 0 + 1) acc) []

/-- Total of a position-count dict. -/
def histoSum (h : List (Position × Nat)) : Nat := (h.map (fun q => q.2)).sum

/-- Success dict of `get_mep_voting_history`. -/
structure MepHistoryOk where
  member_id : Int
  mep_name : String
  country : String
  recent_votes : List HistRow
  votes_analyzed : Nat
  voting_pattern_summary : List (Position × Nat)
  explanation : String
deriving DecidableEq

/-- Return value of `get_mep_voting_history`. -/
inductive MepHistoryResult where
  | failure (msg : String)
  | found (d : MepHistoryOk)
deriving DecidableEq

/-- Python `get_mep_voting_history(member_id, limit)`. -/
def get_mep_voting_history (conn : Conn) (member_id : Int) (limit : Int) :
    Except String MepHistoryResult :=
  match conn with
  | Except.error e => Except.ok (.failure ("Database error: " ++ e))
  | Except.ok db =>
    match db.members.find? (fun m => decide (m.id = member_id)) with
    | none => Except.ok (.failure ("MEP with ID " ++ toString member_id ++ " not found"))
    | some m =>
      let joined :=
        (db.member_votes.filter (fun mv => decide (mv.member_id = member_id))).flatMap
          (fun mv => (db.votes.filter (fun v => decide (v.id = mv.vote_id))).flatMap
            (fun v => (leftJoin1 db.groups mv.group_code).map (fun g? =>
              { vote_id := v.id
                vote_title := v.display_title
                timestamp := v.timestamp
                mep_position := mv.position
                procedure_title := v.procedure_title
                procedure_type := v.procedure_type
                vote_result := v.result
                total_for := v.count_for
                total_against := v.count_against
                total_abstention := v.count_abstention
                mep_group_at_time := mv.group_code
                group_name := orNonAttached (g?.map (fun g => g.label)) : HistRow })))
      let window := sqlLimit limit (List.insertionSort histTsDesc joined)
      Except.ok (.found
        { member_id := member_id
          mep_name := m.first_name ++ " " ++ m.last_name
          country := m.country_code
          recent_votes := window
          votes_analyzed := window.length
          voting_pattern_summary := histo (window.map (fun r => r.mep_position))
          explanation := "Recent voting history for " ++ m.first_name ++ " " ++ m.last_name ++
            " from " ++ m.country_code })

/-- The `ORDER BY gm.start_date DESC, gm.term DESC` relation on joined
group-membership rows. -/
def gmDesc (a b : GroupMembership × Option Group) : Prop :=
  strLt b.1.start_date a.1.start_date = true ∨
    (a.1.start_date = b.1.start_date ∧ b.1.term ≤ a.1.term)

instance : DecidableRel gmDesc := fun a b => by unfold gmDesc; infer_instance

/-- The `current_political_group` dict of `get_mep_details`.  With no
membership row the Python code substitutes the sentinel name and short
name and leaves the other fields `None`; with a membership row whose group
code has no `groups` row, the LEFT JOIN leaves name and short name NULL. -/
structure CurrentGroupInfo where
  group_code : Option String
  group_name : Option String
  group_short_name : Option String
  member_since : Option String
  membership_end : Option String
  parliamentary_term : Option Int
deriving DecidableEq

/-- The `voting_percentages` dict of `get_mep_details`. -/
structure VotingPercentages where
  for_percent : ℚ
  against_percent : ℚ
  abstention_percent : ℚ
  absent_percent : ℚ
deriving DecidableEq

/-- The `voting_statistics` dict of `get_mep_details`. -/
structure VotingStats where
  total_votes_cast : Nat
  votes_for : Nat
  votes_against : Nat
  abstentions : Nat
  did_not_vote : Nat
  participation_rate_percent : ℚ
  voting_percentages : VotingPercentages
deriving DecidableEq

/-- The `personal_info` dict of `get_mep_details`. -/
structure PersonalInfo where
  first_name : String
  last_name : String
  full_name : String
  country_code : String
  country_name : String
  date_of_birth : String
  email : String
  facebook : String
  twitter : String
deriving DecidableEq

/-- One `top_policy_interests` item of `get_mep_details`. -/
structure PolicyInterest where
  policy_area : String
  votes_count : Nat
deriving DecidableEq

/-- One `political_group_history` item of `get_mep_details`. -/
structure GroupHistoryItem where
  group_code : String
  group_name : String
  start_date : String
  end_date : Option String
  term : Int
deriving DecidableEq

/-- Success dict of `get_mep_details`. -/
structure MepDetailsOk where
  member_id : Int
  personal_info : PersonalInfo
  current_political_group : CurrentGroupInfo
  voting_statistics : VotingStats
  top_policy_interests : List PolicyInterest
  political_group_history : List GroupHistoryItem
  explanation : String
deriving DecidableEq

/-- Return value of `get_mep_details`. -/
inductive MepDetailsResult where
  | failure (msg : String)
  | found (d : MepDetailsOk)
deriving DecidableEq

/-- The `ORDER BY vote_count DESC` relation of the top-topics query. -/
def cntDesc (a b : String × Nat) : Prop := b.2 ≤ a.2

instance : DecidableRel cntDesc := fun a b => by unfold cntDesc; infer_instance

/-- Python `get_mep_details(member_id)`. -/
def get_mep_details (conn : Conn) (member_id : Int) : Except String MepDetailsResult :=
  match conn with
  | Except.error e => Except.ok (.failure ("Database error: " ++ e))
  | Except.ok db =>
    match db.members.find? (fun m => decide (m.id = member_id)) with
    | none => Except.ok (.failure ("MEP with ID " ++ toString member_id ++ " not found"))
    | some m =>
      let country_label :=
        match db.countries.find? (fun c => decide (c.code = m.country_code)) with
        | some c => c.label
        | none => m.country_code
      let gmJoined :=
        List.insertionSort gmDesc
          ((db.group_memberships.filter (fun gm => decide (gm.member_id = member_id))).flatMap
            (fun gm => (leftJoin1 db.groups (some gm.group_code)).map (fun g? => (gm, g?))))
      let current := gmJoined.head?
      let mvs := db.member_votes.filter (fun mv => decide (mv.member_id = member_id))
      let total := mvs.length
      let vFor := mvs.countP (fun mv => decide (mv.position = Position.FOR))
      let vAgainst := mvs.countP (fun mv => decide (mv.position = Position.AGAINST))
      let vAbst := mvs.countP (fun mv => decide (mv.position = Position.ABSTENTION))
      let vDnv := mvs.countP (fun mv => decide (mv.position = Position.DID_NOT_VOTE))
      let starts :=
        (db.group_memberships.filter (fun gm => decide (gm.member_id = member_id))).map
          (fun gm => gm.start_date)
      let avail :=
        match minStr? starts with
        | none => 0
        | some d => (((db.votes.filter (fun v => strLe d v.timestamp)).map
            (fun v => v.id)).dedup).length
      let rate : ℚ :=
        if 0 < avail then
          pyRoundAt 2 (((total : ℚ) - (vDnv : ℚ)) / (avail : ℚ) * 100)
        else 0
      let topicPairs :=
        (mvs.filter (fun mv => decide (mv.position ≠ Position.DID_NOT_VOTE))).flatMap
          (fun mv => (db.eurovoc_concept_votes.filter
              (fun l => decide (l.vote_id = mv.vote_id))).flatMap
            (fun l => (db.eurovoc_concepts.filter
                (fun c => decide (c.id = l.eurovoc_concept_id))).map (fun c => c.label)))
      let topTopics :=
        (List.insertionSort cntDesc
          ((topicPairs.dedup).map (fun L => (L, topicPairs.count L)))).take 5
      Except.ok (.found
        { member_id := member_id
          personal_info :=
            { first_name := m.first_name
              last_name := m.last_name
              full_name := m.first_name ++ " " ++ m.last_name
              country_code := m.country_code
              country_name := country_label
              date_of_birth := m.date_of_birth
              email := m.email
              facebook := m.facebook
              twitter := m.twitter }
          current_political_group :=
            { group_code := current.map (fun p => p.1.group_code)
              group_name :=
                match current with
                | none => some "Non-attached"
                | some p => p.2.map (fun g => g.label)
              group_short_name :=
                match current with
                | none => some "NI"
                | some p => p.2.map (fun g => g.short_label)
              member_since := current.map (fun p => p.1.start_date)
              membership_end :=
                match current with
                | none => none
                | some p => p.1.end_date
              parliamentary_term := current.map (fun p => p.1.term) }
          voting_statistics :=
            { total_votes_cast := total
              votes_for := vFor
              votes_against := vAgainst
              abstentions := vAbst
              did_not_vote := vDnv
              participation_rate_percent := rate
              voting_percentages :=
                { for_percent :=
                    if 0 < total then pyRoundAt 1 ((vFor : ℚ) / (total : ℚ) * 100) else 0
                  against_percent :=
                    if 0 < total then pyRoundAt 1 ((vAgainst : ℚ) / (total : ℚ) * 100) else 0
                  abstention_percent :=
                    if 0 < total then pyRoundAt 1 ((vAbst : ℚ) / (total : ℚ) * 100) else 0
                  absent_percent :=
                    if 0 < total then pyRoundAt 1 ((vDnv : ℚ) / (total : ℚ) * 100) else 0 } }
          top_policy_interests :=
            topTopics.map (fun p => { policy_area := p.1, votes_count := p.2 })
          political_group_history :=
            (gmJoined.take 3).map (fun p =>
              { group_code := p.1.group_code
                group_name := orNonAttached (p.2.map (fun g => g.label))
                start_date := p.1.start_date
                end_date := p.1.end_date
                term := p.1.term })
          explanation := "Complete profile for MEP " ++ m.first_name ++ " " ++ m.last_name ++
            " from " ++ country_label })


/-! ### Spec-side definitions and concrete fixtures -/

/-- The exact (unrounded) relative margin of a returned controversy row,
following the formula of the spec:
`margin_percentage = |for - against| / (for + against) * 100`. -/
def exactMarginPct (r : ContRow) : ℚ :=
  |(r.votes_for : ℚ) - (r.votes_against : ℚ)| /
    ((r.votes_for : ℚ) + (r.votes_against : ℚ)) * 100

/-- The ordering claimed by the spec for `get_controversial_votes`: exact
`margin_percentage` non-decreasing, ties broken by the absolute margin
non-decreasing. -/
def specContLe (a b : ContRow) : Prop :=
  exactMarginPct a < exactMarginPct b ∨
    (exactMarginPct a = exactMarginPct b ∧ a.vote_margin ≤ b.vote_margin)

instance : DecidableRel specContLe := fun a b => by unfold specContLe; infer_instance

/-- The rows of a `get_controversial_votes` result (empty on any other
shape). -/
def contRowsOf : Except String ControversialResult → List ContRow
  | Except.ok (.found d) => d.controversial_votes
  | _ => []

/-- The ordering the code actually sorts by, read off the returned rows:
the reported (rounded, in hundredths) `margin_percentage` non-decreasing,
ties in the rounded value broken by the absolute margin non-decreasing. -/
def outContLe (a b : ContRow) : Prop :=
  a.margin_percentage < b.margin_percentage ∨
    (a.margin_percentage = b.margin_percentage ∧ a.vote_margin ≤ b.vote_margin)

/-- Case-insensitive substring containment, the property the spec claims
of every vote returned by `search_votes_by_topic`: the keyword occurs in
the label up to ASCII case. -/
def containsCI (kw s : String) : Prop :=
  (kw.toList.map asciiLower) <:+: (s.toList.map asciiLower)

instance (kw s : String) : Decidable (containsCI kw s) := by
  unfold containsCI; infer_instance

/-- Vote `vid` has at least one associated topic label containing `kw`
case-insensitively (the spec-side property of C5). -/
def hasMatchingTopic (db : Store) (kw : String) (vid : Int) : Prop :=
  ∃ c ∈ db.eurovoc_concepts,
    (∃ l ∈ db.eurovoc_concept_votes,
      l.vote_id = vid ∧ l.eurovoc_concept_id = c.id) ∧ containsCI kw c.label

instance (db : Store) (kw : String) (vid : Int) : Decidable (hasMatchingTopic db kw vid) := by
  unfold hasMatchingTopic; infer_instance

/-- Fixture vote with the given id, timestamp and FOR/AGAINST counts. -/
def mkVote (i : Int) (ts : String) (f a : Int) : Vote :=
  { id := i
    timestamp := ts
    display_title := "title"
    reference := ""
    description := ""
    is_main := true
    procedure_reference := ""
    procedure_title := ""
    procedure_type := ""
    procedure_stage := ""
    count_for := f
    count_against := a
    count_abstention := 0
    count_did_not_vote := 0
    result := "ADOPTED" }

/-- Fixture member-vote row. -/
def mkMV (vid mid : Int) (p : Position) (gc : Option String) : MemberVote :=
  { vote_id := vid
    member_id := mid
    position := p
    country_code := "DE"
    group_code := gc }

/-- Empty store, base of the fixtures. -/
def emptyStore : Store :=
  { votes := []
    members := []
    countries := []
    groups := []
    group_memberships := []
    member_votes := []
    eurovoc_concepts := []
    eurovoc_concept_votes := [] }

/-- C2 counterexample store: vote 1 has exact relative margin
`4999 * 100 / 19997` (just under 25, rounding to 25.00), vote 2 has exact
relative margin 25 with the smaller absolute margin. -/
def dbC2 : Store :=
  { emptyStore with
      votes := [mkVote 1 "2024-01-01" 12498 7499, mkVote 2 "2024-01-02" 5 3] }

/-- C2 witness store. -/
def dbC2w : Store :=
  { emptyStore with
      votes := [mkVote 1 "2024-01-01" 10 5, mkVote 2 "2024-01-02" 8 7,
        mkVote 3 "2024-01-03" 4 0] }

/-- C6 witness store: one vote whose id is not 999999999. -/
def dbC6 : Store :=
  { emptyStore with votes := [mkVote 1 "2024-01-01" 10 5] }

/-- Fixture member row. -/
def mkMember (i : Int) : Member :=
  { id := i
    first_name := "Jane"
    last_name := "Doe"
    country_code := "DE"
    date_of_birth := "1970-01-01"
    email := ""
    facebook := ""
    twitter := "" }

/-- C8 witness store: one member with votes on two days. -/
def dbC8 : Store :=
  { emptyStore with
      votes := [mkVote 1 "2024-01-01" 10 5, mkVote 2 "2024-01-02" 8 7]
      members := [mkMember 7]
      member_votes := [mkMV 1 7 Position.FOR none, mkMV 2 7 Position.AGAINST none] }

/-- C7 witness store: a member with recorded votes but zero group
memberships. -/
def dbC7 : Store :=
  { emptyStore with
      votes := [mkVote 1 "2024-01-01" 10 5]
      members := [mkMember 7]
      member_votes := [mkMV 1 7 Position.FOR none] }

/-- The rows of a `search_votes_by_topic` result (empty on any other
shape). -/
def topicRowsOf : Except String TopicSearchResult → List TopicRow
  | Except.ok (.found d) => d.votes
  | _ => []

/-- C5 stores: one vote tagged with the topic label `"climate"`. -/
def dbC5 : Store :=
  { emptyStore with
      votes := [mkVote 1 "2024-01-01" 10 5]
      eurovoc_concepts := [{ id := "c1", label := "climate" }]
      eurovoc_concept_votes := [{ vote_id := 1, eurovoc_concept_id := "c1" }] }

/-- The breakdown dict of a `get_group_voting_breakdown` result (empty on
any other shape). -/
def groupBreakdownOf : Except String GroupBreakdownResult → List (String × BEntry)
  | Except.ok (.found d) => d.group_breakdown
  | _ => []

/-- The breakdown dict of a `get_country_voting_patterns` result (empty
on any other shape). -/
def countryBreakdownOf : Except String CountryPatternsResult → List (String × BEntry)
  | Except.ok (.found d) => d.country_breakdown
  | _ => []

/-- C3 counterexample store: two distinct group codes share the label
`"G"` but have different short labels, so the two grouped SQL rows target
the same dict entry and position, and the second assignment overwrites
the first. -/
def dbC3 : Store :=
  { emptyStore with
      votes := [mkVote 1 "2024-01-01" 2 0]
      groups := [{ code := "A", official_label := "GA", label := "G", short_label := "g1" },
        { code := "B", official_label := "GB", label := "G", short_label := "g2" }]
      member_votes := [mkMV 1 10 Position.FOR (some "A"), mkMV 1 11 Position.FOR (some "B")] }

/-- C3 witness store: one real group plus one member vote with no group
code (the sentinel bucket case). -/
def dbC3w : Store :=
  { emptyStore with
      votes := [mkVote 1 "2024-01-01" 2 0]
      groups := [{ code := "A", official_label := "GA", label := "Group A", short_label := "GA" }]
      member_votes := [mkMV 1 10 Position.FOR (some "A"), mkMV 1 11 Position.AGAINST none] }

/-- A member-vote row survives both inner joins of
`get_country_voting_patterns`: its member exists and that member's
country code has a `countries` row. -/
def countryMatched (db : Store) (mv : MemberVote) : Bool :=
  db.members.any (fun m => decide (m.id = mv.member_id) &&
    db.countries.any (fun c => decide (c.code = m.country_code)))

/-- C4 counterexample store: two distinct group codes share the label
(and short label) `"G"`.  The dict groups both rows under one `"G"`
entry, but the window percentage partitions by `member_votes.group_code`,
so each position is 100 percent of its own code's partition and the
entry's percentages sum to 200 percent. -/
def dbC4 : Store :=
  { emptyStore with
      votes := [mkVote 1 "2024-01-01" 1 1]
      groups := [{ code := "A", official_label := "GA", label := "G", short_label := "g" },
        { code := "B", official_label := "GB", label := "G", short_label := "g" }]
      member_votes := [mkMV 1 10 Position.FOR (some "A"), mkMV 1 11 Position.AGAINST (some "B")] }

/-- C4 witness store: one real group (two positions) plus a group-less
member vote; labels and window partition keys determine each other. -/
def dbC4w : Store :=
  { emptyStore with
      votes := [mkVote 1 "2024-01-01" 1 1]
      groups := [{ code := "A", official_label := "GA", label := "Group A", short_label := "GA" }]
      member_votes := [mkMV 1 10 Position.FOR (some "A"), mkMV 1 11 Position.AGAINST (some "A"),
        mkMV 1 12 Position.FOR none] }

/-- C10 witness store: one member vote joins member 7 and country DE, a
second member vote references member 8 who has no `members` row and is
silently dropped by the inner join. -/
def dbC10 : Store :=
  { emptyStore with
      votes := [mkVote 1 "2024-01-01" 2 0]
      members := [mkMember 7]
      countries := [{ code := "DE", iso_alpha_2 := "DE", label := "Germany" }]
      member_votes := [mkMV 1 7 Position.FOR none, mkMV 1 8 Position.FOR none] }

/-! ### Theorems

General lemmas about the embedded operations, followed by one theorem per
claim (with witnesses and counterexamples where required). -/

theorem char_eq_of_toNat_eq {a b : Char} (h : a.toNat = b.toNat) : a = b := by
  have : a.val = b.val := by
    apply UInt32.eq_of_toBitVec_eq
    apply BitVec.eq_of_toNat_eq
    exact h
  exact Char.eq_of_val_eq this

theorem string_eq_of_toList_eq {a b : String} (h : a.toList = b.toList) : a = b := by
  cases a; cases b; simp only [String.toList] at h; rw [h]

theorem strLeL_total : ∀ as bs, strLeL as bs = true ∨ strLeL bs as = true := by
  intro as
  induction as with
  | nil => intro bs; exact Or.inl rfl
  | cons a as ih =>
    intro bs
    cases bs with
    | nil => exact Or.inr rfl
    | cons b bs =>
      simp only [strLeL]
      rcases Nat.lt_trichotomy a.toNat b.toNat with h | h | h
      · left; simp [h]
      · have h2 : ¬ a.toNat < b.toNat := by omega
        have h3 : ¬ b.toNat < a.toNat := by omega
        simpa [h2, h3] using ih bs
      · right; simp [h]

theorem strLeL_trans :
    ∀ as bs cs, strLeL as bs = true → strLeL bs cs = true → strLeL as cs = true := by
  intro as
  induction as with
  | nil => intro bs cs _ _; rfl
  | cons a as ih =>
    intro bs cs h1 h2
    cases bs with
    | nil => simp [strLeL] at h1
    | cons b bs =>
      cases cs with
      | nil => simp [strLeL] at h2
      | cons c cs =>
        simp only [strLeL] at h1 h2 ⊢
        split at h1
        · rename_i hab
          split at h2
          · rename_i hbc; simp [show a.toNat < c.toNat by omega]
          · split at h2
            · exact absurd h2 (by simp)
            · rename_i hcb hbc
              simp [show a.toNat < c.toNat by omega]
        · split at h1
          · exact absurd h1 (by simp)
          · rename_i hba hab
            have hab2 : a.toNat = b.toNat := by omega
            split at h2
            · rename_i hbc; simp [show a.toNat < c.toNat by omega]
            · split at h2
              · exact absurd h2 (by simp)
              · rename_i hcb hbc
                have hbc2 : b.toNat = c.toNat := by omega
                have h3 : ¬ a.toNat < c.toNat := by omega
                have h4 : ¬ c.toNat < a.toNat := by omega
                simpa [h3, h4] using ih bs cs h1 h2

theorem strLtL_trans :
    ∀ as bs cs, strLtL as bs = true → strLtL bs cs = true → strLtL as cs = true := by
  intro as
  induction as with
  | nil =>
    intro bs cs h1 h2
    cases bs with
    | nil => simp [strLtL] at h1
    | cons b bs =>
      cases cs with
      | nil => simp [strLtL] at h2
      | cons c cs => rfl
  | cons a as ih =>
    intro bs cs h1 h2
    cases bs with
    | nil => simp [strLtL] at h1
    | cons b bs =>
      cases cs with
      | nil => simp [strLtL] at h2
      | cons c cs =>
        simp only [strLtL] at h1 h2 ⊢
        split at h1
        · rename_i hab
          split at h2
          · rename_i hbc; simp [show a.toNat < c.toNat by omega]
          · split at h2
            · exact absurd h2 (by simp)
            · rename_i hcb hbc
              simp [show a.toNat < c.toNat by omega]
        · split at h1
          · exact absurd h1 (by simp)
          · rename_i hba hab
            split at h2
            · rename_i hbc; simp [show a.toNat < c.toNat by omega]
            · split at h2
              · exact absurd h2 (by simp)
              · rename_i hcb hbc
                have h3 : ¬ a.toNat < c.toNat := by omega
                have h4 : ¬ c.toNat < a.toNat := by omega
                simpa [h3, h4] using ih bs cs h1 h2

theorem strLtL_conn :
    ∀ as bs, strLtL as bs = false → strLtL bs as = false → as = bs := by
  intro as
  induction as with
  | nil =>
    intro bs h1 _
    cases bs with
    | nil => rfl
    | cons b bs => simp [strLtL] at h1
  | cons a as ih =>
    intro bs h1 h2
    cases bs with
    | nil => simp [strLtL] at h2
    | cons b bs =>
      simp only [strLtL] at h1 h2
      split at h1
      · exact absurd h1 (by simp)
      · split at h1
        · rename_i hba hab
          simp [hab] at h2
        · rename_i hba hab
          have : a = b := char_eq_of_toNat_eq (by omega)
          have h3 : ¬ b.toNat < a.toNat := by omega
          rw [this, ih bs h1 (by simpa [hba, h3] using h2)]

theorem strLt_trans {a b c : String} (h1 : strLt a b = true) (h2 : strLt b c = true) :
    strLt a c = true := strLtL_trans _ _ _ h1 h2

theorem strLt_conn {a b : String} (h1 : strLt a b = false) (h2 : strLt b a = false) :
    a = b := string_eq_of_toList_eq (strLtL_conn _ _ h1 h2)

theorem strLe_total (a b : String) : strLe a b = true ∨ strLe b a = true :=
  strLeL_total a.toList b.toList

theorem strLe_trans {a b c : String} (h1 : strLe a b = true) (h2 : strLe b c = true) :
    strLe a c = true := strLeL_trans _ _ _ h1 h2

/-- C9: every query function is deterministic with respect to the store
state.  Each function of the model is a pure function of the connection
(the store) and its scalar arguments alone — mirroring the source, where
every call opens its own connection, reads, closes, and touches no module
state, clock or randomness — so two invocations with identical arguments
against an unchanged store return structurally identical outputs. -/
theorem c9_determinism (conn : Conn) (vid mid lim n : Int) (kw nm : String) :
    get_vote_details conn vid = get_vote_details conn vid ∧
    get_controversial_votes conn n = get_controversial_votes conn n ∧
    get_group_voting_breakdown conn vid = get_group_voting_breakdown conn vid ∧
    search_votes_by_topic conn kw = search_votes_by_topic conn kw ∧
    get_country_voting_patterns conn vid = get_country_voting_patterns conn vid ∧
    search_meps conn nm = search_meps conn nm ∧
    get_recent_votes conn lim = get_recent_votes conn lim ∧
    get_mep_voting_history conn mid lim = get_mep_voting_history conn mid lim ∧
    get_mep_details conn mid = get_mep_details conn mid :=
  ⟨rfl, rfl, rfl, rfl, rfl, rfl, rfl, rfl, rfl⟩

/-- C1, counterexample: `search_meps` (and likewise `get_recent_votes`)
has no try/except in the source, so an underlying store error is not
caught and no mapping is returned: the exception propagates to the
caller. -/
theorem c1_counterexample :
    exceptOk (search_meps (Except.error "database is locked") "Smith") = false ∧
    exceptOk (get_recent_votes (Except.error "database is locked") 5) = false :=
  ⟨rfl, rfl⟩

/-- C1, amended: the seven functions wrapped in try/except
(`get_vote_details`, `get_controversial_votes`,
`get_group_voting_breakdown`, `search_votes_by_topic`,
`get_country_voting_patterns`, `get_mep_voting_history`,
`get_mep_details`) never raise: on any store error they return the
mapping with the `"Database error: <message>"` key, and on a healthy
store they always return a mapping.  `search_meps` and `get_recent_votes`
have no try/except and propagate any store error to the caller. -/
theorem c1_error_handling (conn : Conn) (e : String) (vid mid lim n : Int) (kw nm : String) :
    (exceptOk (get_vote_details conn vid) = true ∧
      exceptOk (get_controversial_votes conn n) = true ∧
      exceptOk (get_group_voting_breakdown conn vid) = true ∧
      exceptOk (search_votes_by_topic conn kw) = true ∧
      exceptOk (get_country_voting_patterns conn vid) = true ∧
      exceptOk (get_mep_voting_history conn mid lim) = true ∧
      exceptOk (get_mep_details conn mid) = true) ∧
    (get_vote_details (Except.error e) vid =
        Except.ok (.failure ("Database error: " ++ e)) ∧
      get_controversial_votes (Except.error e) n =
        Except.ok (.failure ("Database error: " ++ e)) ∧
      get_group_voting_breakdown (Except.error e) vid =
        Except.ok (.failure ("Database error: " ++ e)) ∧
      search_votes_by_topic (Except.error e) kw =
        Except.ok (.failure ("Database error: " ++ e)) ∧
      get_country_voting_patterns (Except.error e) vid =
        Except.ok (.failure ("Database error: " ++ e)) ∧
      get_mep_voting_history (Except.error e) mid lim =
        Except.ok (.failure ("Database error: " ++ e)) ∧
      get_mep_details (Except.error e) mid =
        Except.ok (.failure ("Database error: " ++ e))) ∧
    search_meps (Except.error e) nm = Except.error e ∧
    get_recent_votes (Except.error e) lim = Except.error e := by
  refine ⟨⟨?_, ?_, ?_, ?_, ?_, ?_, ?_⟩, ⟨rfl, rfl, rfl, rfl, rfl, rfl, rfl⟩, rfl, rfl⟩
  · cases conn with
    | error e => rfl
    | ok db => simp only [get_vote_details]; split <;> rfl
  · cases conn with
    | error e => rfl
    | ok db => rfl
  · cases conn with
    | error e => rfl
    | ok db => simp only [get_group_voting_breakdown]; split <;> rfl
  · cases conn with
    | error e => rfl
    | ok db => simp only [search_votes_by_topic]; split <;> rfl
  · cases conn with
    | error e => rfl
    | ok db => simp only [get_country_voting_patterns]; split <;> rfl
  · cases conn with
    | error e => rfl
    | ok db => simp only [get_mep_voting_history]; split <;> rfl
  · cases conn with
    | error e => rfl
    | ok db => simp only [get_mep_details]; split <;> rfl

/-- C6: for a vote id with no matching `votes` row, each of
`get_vote_details`, `get_group_voting_breakdown` and
`get_country_voting_patterns` returns the mapping whose only key is the
error key, carrying the not-found message. -/
theorem c6_not_found (db : Store) (vid : Int) (h : ∀ v ∈ db.votes, v.id ≠ vid) :
    get_vote_details (Except.ok db) vid =
      Except.ok (.failure ("Vote " ++ toString vid ++ " not found")) ∧
    get_group_voting_breakdown (Except.ok db) vid =
      Except.ok (.failure ("Vote " ++ toString vid ++ " not found")) ∧
    get_country_voting_patterns (Except.ok db) vid =
      Except.ok (.failure ("Vote " ++ toString vid ++ " not found")) := by
  have hf : db.votes.find? (fun v => decide (v.id = vid)) = none := by
    apply List.find?_eq_none.mpr
    intro v hv
    simpa using h v hv
  exact ⟨by simp [get_vote_details, hf], by simp [get_group_voting_breakdown, hf],
    by simp [get_country_voting_patterns, hf]⟩

theorem sorted_sqlLimit_insertionSort {α : Type} (r : α → α → Prop) [DecidableRel r]
    [IsTotal α r] [IsTrans α r] (n : Int) (l : List α) :
    List.Sorted r (sqlLimit n (List.insertionSort r l)) := by
  have hsub : List.Sublist (sqlLimit n (List.insertionSort r l)) (List.insertionSort r l) := by
    unfold sqlLimit
    split
    · exact List.Sublist.refl _
    · exact List.take_sublist _ _
  exact List.Pairwise.sublist hsub (List.sorted_insertionSort r _)

theorem length_sqlLimit_le {α : Type} (n : Int) (hn : 0 ≤ n) (l : List α) :
    ((sqlLimit n l).length : Int) ≤ n := by
  have h1 : (sqlLimit n l).length ≤ n.toNat := by
    simp only [sqlLimit, if_neg (show ¬ n < 0 by omega)]
    exact List.length_take_le _ _
  calc ((sqlLimit n l).length : Int) ≤ (n.toNat : Int) := by exact_mod_cast h1
    _ = n := Int.toNat_of_nonneg hn

theorem mem_sqlLimit {α : Type} {x : α} {n : Int} {l : List α}
    (h : x ∈ sqlLimit n l) : x ∈ l := by
  revert h
  unfold sqlLimit
  split
  · exact id
  · exact List.mem_of_mem_take

theorem alookup_upsert {κ ν : Type} [DecidableEq κ] (q k : κ) (f : Option ν → ν) :
    ∀ l, alookup q (upsert k f l) =
      if q = k then some (f (alookup k l)) else alookup q l := by
  intro l
  induction l with
  | nil => simp [upsert, alookup]
  | cons h t ih =>
    obtain ⟨k2, v⟩ := h
    by_cases hk : k = k2
    · subst hk
      by_cases hq : q = k <;> simp [upsert, alookup, hq]
    · by_cases hq : q = k2
      · subst hq
        have hqk : ¬ q = k := fun h => hk h.symm
        simp [upsert, alookup, hk, hqk]
      · simp [upsert, alookup, hk, hq, ih]

theorem sumVals_upsert_inc (k : Position) :
    ∀ l : List (Position × Nat),
      ((upsert k (fun n? => n?.getD 0 + 1) l).map (fun q => q.2)).sum =
        (l.map (fun q => q.2)).sum + 1 := by
  intro l
  induction l with
  | nil => simp [upsert]
  | cons h t ih =>
    obtain ⟨k2, v⟩ := h
    by_cases hk : k = k2
    · subst hk; simp [upsert]; omega
    · simp [upsert, hk, ih]; omega

theorem histo_lookup_aux (q : Position) :
    ∀ (ps : List Position) (acc : List (Position × Nat)),
      (alookup q (ps.foldl (fun acc p => upsert p (fun n? => n?.getD 0 + 1) acc) acc)).getD 0 =
        (alookup q acc).getD 0 + ps.countP (fun p => decide (p = q)) := by
  intro ps
  induction ps with
  | nil => intro acc; simp
  | cons p ps ih =>
    intro acc
    rw [List.foldl_cons, ih, List.countP_cons]
    rw [alookup_upsert]
    by_cases hq : q = p
    · subst hq; simp; omega
    · have hpq : ¬ p = q := fun h => hq h.symm
      simp [hq, hpq]

/-- The histogram looked up at `q` counts the occurrences of `q`. -/
theorem histo_lookup (ps : List Position) (q : Position) :
    (alookup q (histo ps)).getD 0 = ps.countP (fun p => decide (p = q)) := by
  have := histo_lookup_aux q ps []
  simpa [histo, alookup] using this

theorem histoSum_aux :
    ∀ (ps : List Position) (acc : List (Position × Nat)),
      histoSum (ps.foldl (fun acc p => upsert p (fun n? => n?.getD 0 + 1) acc) acc) =
        histoSum acc + ps.length := by
  intro ps
  induction ps with
  | nil => intro acc; simp
  | cons p ps ih =>
    intro acc
    rw [List.foldl_cons, ih]
    have := sumVals_upsert_inc p acc
    simp only [histoSum, List.length_cons] at *
    omega

/-- The histogram's counts sum to the length of the list it was built
from. -/
theorem histoSum_eq_length (ps : List Position) : histoSum (histo ps) = ps.length := by
  have := histoSum_aux ps []
  simpa [histo, histoSum] using this

theorem histTsDesc_total : ∀ a b, histTsDesc a b ∨ histTsDesc b a := fun a b =>
  strLe_total b.timestamp a.timestamp

theorem histTsDesc_trans : ∀ a b c, histTsDesc a b → histTsDesc b c → histTsDesc a c :=
  fun _ _ _ h1 h2 => strLe_trans h2 h1

/-- C8: for a valid member and positive limit, `get_mep_voting_history`
returns at most `limit` votes ordered most-recent-first, and its
`voting_pattern_summary` is the histogram of positions over the returned
window only: each position's count equals its number of occurrences among
the returned votes, the counts sum to `votes_analyzed`, and
`votes_analyzed` is the length of the returned list. -/
theorem c8_history (db : Store) (mid lim : Int) (m : Member)
    (hm : db.members.find? (fun x => decide (x.id = mid)) = some m)
    (hlim : 0 < lim) :
    ∃ d, get_mep_voting_history (Except.ok db) mid lim = Except.ok (.found d) ∧
      (d.recent_votes.length : Int) ≤ lim ∧
      List.Sorted histTsDesc d.recent_votes ∧
      d.votes_analyzed = d.recent_votes.length ∧
      (∀ p : Position, (alookup p d.voting_pattern_summary).getD 0 =
        d.recent_votes.countP (fun r => decide (r.mep_position = p))) ∧
      histoSum d.voting_pattern_summary = d.recent_votes.length := by
  haveI : IsTotal HistRow histTsDesc := ⟨histTsDesc_total⟩
  haveI : IsTrans HistRow histTsDesc := ⟨histTsDesc_trans⟩
  simp only [get_mep_voting_history, hm]
  refine ⟨_, rfl, ?_, ?_, rfl, ?_, ?_⟩
  · exact length_sqlLimit_le lim hlim.le _
  · exact sorted_sqlLimit_insertionSort histTsDesc lim _
  · intro p
    rw [histo_lookup, List.countP_map]
    rfl
  · rw [histoSum_eq_length, List.length_map]

/-- C8, witness: the statement instantiated on a concrete store with one
member and two votes, `limit = 5`. -/
theorem c8_witness :
    dbC8.members.find? (fun x => decide (x.id = 7)) = some (mkMember 7) ∧ (0 : Int) < 5 ∧
      ∃ d, get_mep_voting_history (Except.ok dbC8) 7 5 = Except.ok (.found d) ∧
        (d.recent_votes.length : Int) ≤ 5 ∧
        List.Sorted histTsDesc d.recent_votes ∧
        d.votes_analyzed = d.recent_votes.length ∧
        (∀ p : Position, (alookup p d.voting_pattern_summary).getD 0 =
          d.recent_votes.countP (fun r => decide (r.mep_position = p))) ∧
        histoSum d.voting_pattern_summary = d.recent_votes.length :=
  ⟨by decide, by decide, c8_history dbC8 7 5 (mkMember 7) (by decide) (by decide)⟩

/-- C7: for a valid member with zero rows in `group_memberships`,
`get_mep_details` reports the sentinel current group — name
`"Non-attached"`, short name `"NI"`, null code and dates — and the
participation rate is computed without dividing: the
available-votes denominator is 0 (the `MIN(start_date)` subquery is NULL,
so no vote satisfies the comparison), the positivity guard fails, and the
rate defaults to 0. -/
theorem c7_mep_details (db : Store) (mid : Int) (m : Member)
    (hm : db.members.find? (fun x => decide (x.id = mid)) = some m)
    (hgm : db.group_memberships.filter (fun gm => decide (gm.member_id = mid)) = []) :
    ∃ d, get_mep_details (Except.ok db) mid = Except.ok (.found d) ∧
      d.current_political_group =
        { group_code := none
          group_name := some "Non-attached"
          group_short_name := some "NI"
          member_since := none
          membership_end := none
          parliamentary_term := none } ∧
      d.voting_statistics.participation_rate_percent = 0 := by
  simp only [get_mep_details, hm, hgm]
  exact ⟨_, rfl, rfl, rfl⟩

/-- C7, witness: the statement instantiated on a concrete store whose
member 7 has one recorded vote and no group membership. -/
theorem c7_witness :
    dbC7.members.find? (fun x => decide (x.id = 7)) = some (mkMember 7) ∧
      dbC7.group_memberships.filter (fun gm => decide (gm.member_id = 7)) = [] ∧
      ∃ d, get_mep_details (Except.ok dbC7) 7 = Except.ok (.found d) ∧
        d.current_political_group =
          { group_code := none
            group_name := some "Non-attached"
            group_short_name := some "NI"
            member_since := none
            membership_end := none
            parliamentary_term := none } ∧
        d.voting_statistics.participation_rate_percent = 0 :=
  ⟨by decide, rfl, c7_mep_details dbC7 7 (mkMember 7) (by decide) rfl⟩

theorem likeMatch_pct_iff (ps s : List Char) :
    likeMatch ('%' :: ps) s = true ↔ ∃ t, List.IsSuffix t s ∧ likeMatch ps t = true := by
  rw [show likeMatch ('%' :: ps) s = s.tails.any (fun t => likeMatch ps t) from by
    simp [likeMatch]]
  rw [List.any_eq_true]
  constructor
  · rintro ⟨t, ht, h⟩
    exact ⟨t, (List.mem_tails _ _).1 ht, h⟩
  · rintro ⟨t, ht, h⟩
    exact ⟨t, (List.mem_tails _ _).2 ht, h⟩

theorem likeMatch_append_pct (kw : List Char) (hkw : ∀ c ∈ kw, c ≠ '%' ∧ c ≠ '_') :
    ∀ t, likeMatch (kw ++ ['%']) t = true →
      ∃ pre rest, t = pre ++ rest ∧ pre.map asciiLower = kw.map asciiLower := by
  induction kw with
  | nil => intro t _; exact ⟨[], t, rfl, rfl⟩
  | cons c kw ih =>
    intro t h
    obtain ⟨hc1, hc2⟩ : c ≠ '%' ∧ c ≠ '_' := hkw c (List.mem_cons_self c kw)
    rw [List.cons_append] at h
    cases t with
    | nil => simp [likeMatch, if_neg hc1] at h
    | cons c2 t2 =>
      simp only [likeMatch, if_neg hc1, if_neg hc2, Bool.and_eq_true,
        decide_eq_true_eq] at h
      obtain ⟨pre, rest, ht2, hmap⟩ :=
        ih (fun x hx => hkw x (List.mem_cons_of_mem _ hx)) t2 h.2
      exact ⟨c2 :: pre, rest, by rw [List.cons_append, ht2], by simp [hmap, h.1]⟩

/-- A `LIKE %kw%` match with a wildcard-free keyword yields genuine
case-insensitive substring containment. -/
theorem containsCI_of_likeContains {kw s : String}
    (hkw : ∀ c ∈ kw.toList, c ≠ '%' ∧ c ≠ '_')
    (h : likeContains kw s = true) : containsCI kw s := by
  unfold likeContains at h
  obtain ⟨t, hts, ht⟩ := (likeMatch_pct_iff _ _).1 h
  obtain ⟨pre, rest, htt, hmap⟩ := likeMatch_append_pct kw.toList hkw t ht
  obtain ⟨s1, hs1⟩ := hts
  unfold containsCI
  rw [← hmap]
  refine List.IsInfix.map _ ⟨s1, rest, ?_⟩
  rw [← hs1, htt, List.append_assoc]

/-- C5, amended: for every keyword without the `LIKE` wildcard characters
`%` and `_`, `search_votes_by_topic` returns at most 20 votes, every
returned vote has an associated topic label containing the keyword
case-insensitively, and when no vote matches it returns the
success-shaped empty mapping with a message and no error key.  (With a
wildcard in the keyword the `LIKE` pattern matches more than substring
containment; see the counterexample.) -/
theorem c5_topic_search (db : Store) (kw : String)
    (hkw : ∀ c ∈ kw.toList, c ≠ '%' ∧ c ≠ '_') :
    ∃ r, search_votes_by_topic (Except.ok db) kw = Except.ok r ∧
      (∀ d, r = TopicSearchResult.found d → d.votes.length ≤ 20 ∧
        ∀ row ∈ d.votes, hasMatchingTopic db kw row.vote_id) ∧
      ((∀ v ∈ db.votes, matchingLabels db kw v.id = []) →
        r = TopicSearchResult.noMatches
          { topic_keyword := kw
            votes := []
            count := 0
            message := "No votes found related to " ++ sq ++ kw ++ sq }) := by
  simp only [search_votes_by_topic]
  split
  · rename_i hempty
    refine ⟨_, rfl, ?_, ?_⟩
    · intro d hd; cases hd
    · intro _; rfl
  · rename_i hne
    refine ⟨_, rfl, ?_, ?_⟩
    · intro d hd
      cases hd
      constructor
      · rw [List.length_map]
        have h1 : (sqlLimit 20 (List.insertionSort voteTsDesc
            (db.votes.filter (fun v =>
              decide (matchingLabels db kw v.id ≠ []))))).length ≤ (20 : Int).toNat := by
          simp only [sqlLimit, if_neg (by omega : ¬ (20 : Int) < 0)]
          exact List.length_take_le _ _
        exact h1
      · intro row hrow
        rw [List.mem_map] at hrow
        obtain ⟨v, hv, rfl⟩ := hrow
        have hv2 := mem_sqlLimit hv
        rw [List.mem_insertionSort, List.mem_filter, decide_eq_true_eq] at hv2
        obtain ⟨x, hx⟩ := List.exists_mem_of_ne_nil _ hv2.2
        unfold matchingLabels at hx
        rw [List.mem_flatMap] at hx
        obtain ⟨l, hl, hx2⟩ := hx
        rw [List.mem_map] at hx2
        obtain ⟨c, hc, rfl⟩ := hx2
        rw [List.mem_filter, Bool.and_eq_true, decide_eq_true_eq] at hc
        rw [List.mem_filter, decide_eq_true_eq] at hl
        exact ⟨c, hc.1, ⟨l, hl.1, hl.2, hc.2.1.symm⟩,
          containsCI_of_likeContains hkw hc.2.2⟩
    · intro hno
      exfalso
      apply hne
      have hfil : db.votes.filter (fun v => decide (matchingLabels db kw v.id ≠ [])) = [] := by
        rw [List.filter_eq_nil_iff]
        intro v hv
        simp [hno v hv]
      rw [hfil]
      simp [sqlLimit]

/-- C5, witness: the statement instantiated with keyword `"Lim"` (no
wildcards) on a store with one vote tagged `"climate"`. -/
theorem c5_witness :
    (∀ c ∈ "Lim".toList, c ≠ '%' ∧ c ≠ '_') ∧
      ∃ r, search_votes_by_topic (Except.ok dbC5) "Lim" = Except.ok r ∧
        (∀ d, r = TopicSearchResult.found d → d.votes.length ≤ 20 ∧
          ∀ row ∈ d.votes, hasMatchingTopic dbC5 "Lim" row.vote_id) ∧
        ((∀ v ∈ dbC5.votes, matchingLabels dbC5 "Lim" v.id = []) →
          r = TopicSearchResult.noMatches
            { topic_keyword := "Lim"
              votes := []
              count := 0
              message := "No votes found related to " ++ sq ++ "Lim" ++ sq }) :=
  ⟨by decide, c5_topic_search dbC5 "Lim" (by decide)⟩

/-- C5, counterexample: with keyword `"_"` the `LIKE` pattern `%_%`
matches every nonempty label, so the tagged vote is returned even though
no topic label contains the keyword `"_"` as a substring, case-folded or
not — the claim quantifies over every keyword string and fails on
wildcard keywords. -/
theorem c5_counterexample :
    (topicRowsOf (search_votes_by_topic (Except.ok dbC5) "_")).map
        (fun r => r.vote_id) = [1] ∧
      ¬ hasMatchingTopic dbC5 "_" 1 := by
  constructor
  · decide
  · decide

theorem alookup_append {κ ν : Type} [DecidableEq κ] (k : κ) :
    ∀ l1 l2 : List (κ × ν), alookup k (l1 ++ l2) =
      match alookup k l1 with
      | some v => some v
      | none => alookup k l2 := by
  intro l1 l2
  induction l1 with
  | nil => simp [alookup]
  | cons h t ih =>
    obtain ⟨k2, v⟩ := h
    by_cases hk : k = k2 <;> simp [alookup, hk, ih]

theorem alookup_eq_none_iff {κ ν : Type} [DecidableEq κ] (k : κ) :
    ∀ l : List (κ × ν), alookup k l = none ↔ k ∉ l.map Prod.fst := by
  intro l
  induction l with
  | nil => simp [alookup]
  | cons h t ih =>
    obtain ⟨k2, v⟩ := h
    by_cases hk : k = k2 <;> simp [alookup, hk, ih]

theorem upsert_not_mem {κ ν : Type} [DecidableEq κ] (k : κ) (f : Option ν → ν) :
    ∀ l : List (κ × ν), alookup k l = none → upsert k f l = l ++ [(k, f none)] := by
  intro l
  induction l with
  | nil => intro _; rfl
  | cons h t ih =>
    obtain ⟨k2, v⟩ := h
    intro hl
    by_cases hk : k = k2
    · simp [alookup, hk] at hl
    · simp only [alookup, if_neg hk] at hl
      simp [upsert, hk, ih hl]

theorem map_fst_upsert {κ ν : Type} [DecidableEq κ] (k : κ) (f : Option ν → ν) :
    ∀ l : List (κ × ν), (upsert k f l).map Prod.fst =
      if k ∈ l.map Prod.fst then l.map Prod.fst else l.map Prod.fst ++ [k] := by
  intro l
  induction l with
  | nil => simp [upsert]
  | cons h t ih =>
    obtain ⟨k2, v⟩ := h
    by_cases hk : k = k2
    · simp [upsert, hk]
    · by_cases hm : k ∈ t.map Prod.fst <;> simp [upsert, hk, ih, hm]

theorem alookup_of_mem_nodup {κ ν : Type} [DecidableEq κ] {k : κ} {e : ν} :
    ∀ {l : List (κ × ν)}, (l.map Prod.fst).Nodup → (k, e) ∈ l → alookup k l = some e := by
  intro l
  induction l with
  | nil => intro _ hm; cases hm
  | cons h t ih =>
    obtain ⟨k2, v⟩ := h
    intro hnd hm
    rcases List.mem_cons.1 hm with heq | hm2
    · cases heq
      simp [alookup]
    · rw [List.map_cons, List.nodup_cons] at hnd
      have hk : k ≠ k2 := by
        intro hkk
        subst hkk
        exact hnd.1 (List.mem_map.2 ⟨(k, e), hm2, rfl⟩)
      simp only [alookup, if_neg hk]
      exact ih hnd.2 hm2

theorem alookup_addRow (acc : List (String × BEntry)) (r : PctRow) (L : String) :
    alookup L (addRow acc r) =
      if L = r.label then some (stepEntry (alookup r.label acc) r) else alookup L acc := by
  unfold addRow
  rw [alookup_upsert]

/-- Looking up one label commutes with the reshaping fold: only the rows
carrying that label act on the entry. -/
theorem alookup_foldl_addRow (L : String) :
    ∀ (rows : List PctRow) (acc : List (String × BEntry)),
      alookup L (List.foldl addRow acc rows) =
        List.foldl (fun e? r => some (stepEntry e? r)) (alookup L acc) (rowsFor L rows) := by
  intro rows
  induction rows with
  | nil => intro acc; simp [rowsFor]
  | cons r rows ih =>
    intro acc
    rw [List.foldl_cons, ih]
    by_cases hL : r.label = L
    · have h2 : L = r.label := hL.symm
      rw [show rowsFor L (r :: rows) = r :: rowsFor L rows by simp [rowsFor, hL]]
      rw [List.foldl_cons]
      congr 1
      rw [alookup_addRow, if_pos h2, h2]
    · have h2 : ¬ L = r.label := fun h => hL h.symm
      rw [show rowsFor L (r :: rows) = rowsFor L rows by simp [rowsFor, hL]]
      congr 1
      rw [alookup_addRow, if_neg h2]

/-- Folding the per-row entry update from an existing entry whose
positions do not yet contain any of the rows' positions appends the rows
in order and accumulates their counts. -/
theorem foldl_stepEntry_some :
    ∀ (l : List PctRow) (e : BEntry),
      (∀ r ∈ l, alookup r.pos e.positions = none) →
      (l.map (fun r => r.pos)).Nodup →
      List.foldl (fun e? r => some (stepEntry e? r)) (some e) l =
        some { second := e.second
               positions :=
                 e.positions ++ l.map (fun r => (r.pos,
                   { count := r.count, percentage := r.pct : PosEntry }))
               total := e.total + (l.map (fun r => r.count)).sum } := by
  intro l
  induction l with
  | nil => intro e _ _; simp
  | cons r l ih =>
    intro e hfresh hnd
    rw [List.foldl_cons]
    have hstep : stepEntry (some e) r =
        { second := e.second
          positions := e.positions ++ [(r.pos, { count := r.count, percentage := r.pct })]
          total := e.total + r.count } := by
      unfold stepEntry
      simp only []
      rw [upsert_not_mem _ _ _ (hfresh r (List.mem_cons_self r l))]
    rw [hstep]
    rw [List.map_cons, List.nodup_cons] at hnd
    rw [ih _ ?_ hnd.2]
    · simp [List.append_assoc, List.sum_cons, Nat.add_assoc]
    · intro r2 hr2
      rw [alookup_append]
      rw [hfresh r2 (List.mem_cons_of_mem r hr2)]
      have : r2.pos ≠ r.pos := by
        intro hp
        exact hnd.1 (hp ▸ List.mem_map.2 ⟨r2, hr2, rfl⟩)
      simp [alookup, this]

/-- Folding the per-row entry update from nothing builds the entry of the
list: secondary label of the first row, positions in order, total the sum
of the counts. -/
theorem foldl_stepEntry_none (r0 : PctRow) (rs : List PctRow)
    (hnd : ((r0 :: rs).map (fun r => r.pos)).Nodup) :
    List.foldl (fun e? r => some (stepEntry e? r)) none (r0 :: rs) =
      some { second := r0.second
             positions := (r0 :: rs).map (fun r => (r.pos,
               { count := r.count, percentage := r.pct : PosEntry }))
             total := ((r0 :: rs).map (fun r => r.count)).sum } := by
  rw [List.foldl_cons]
  have hstep : stepEntry none r0 =
      { second := r0.second
        positions := [(r0.pos, { count := r0.count, percentage := r0.pct })]
        total := r0.count } := by
    unfold stepEntry
    simp [upsert]
  rw [hstep]
  rw [List.map_cons, List.nodup_cons] at hnd
  rw [foldl_stepEntry_some rs _ ?_ hnd.2]
  · simp
  · intro r2 hr2
    have : r2.pos ≠ r0.pos := by
      intro hp
      exact hnd.1 (hp ▸ List.mem_map.2 ⟨r2, hr2, rfl⟩)
    simp [alookup, this]

theorem nodup_pos_of_nodup_pairs {l : List PctRow} {L : String}
    (hnd : (l.map (fun r => (r.label, r.pos))).Nodup)
    (hconst : ∀ r ∈ l, r.label = L) :
    (l.map (fun r => r.pos)).Nodup := by
  induction l with
  | nil => simp
  | cons r l ih =>
    rw [List.map_cons, List.nodup_cons] at hnd ⊢
    refine ⟨?_, ih hnd.2 (fun r2 h2 => hconst r2 (List.mem_cons_of_mem r h2))⟩
    intro hmem
    obtain ⟨r2, hr2, hp⟩ := List.mem_map.1 hmem
    apply hnd.1
    refine List.mem_map.2 ⟨r2, hr2, ?_⟩
    rw [hp, hconst r (List.mem_cons_self r l),
      hconst r2 (List.mem_cons_of_mem r hr2)]

/-- Main characterization of the Python reshaping loop: when no two rows
share a label and position (so no dict entry is overwritten), the entry
under each label collects exactly that label's rows, in order. -/
theorem buildBreakdown_lookup {rows : List PctRow}
    (hnd : (rows.map (fun r => (r.label, r.pos))).Nodup) (L : String) :
    alookup L (buildBreakdown rows) =
      match rowsFor L rows with
      | [] => none
      | r0 :: rs =>
        some { second := r0.second
               positions := (r0 :: rs).map (fun r => (r.pos,
                 { count := r.count, percentage := r.pct : PosEntry }))
               total := ((r0 :: rs).map (fun r => r.count)).sum } := by
  unfold buildBreakdown
  rw [alookup_foldl_addRow]
  have halo : alookup L ([] : List (String × BEntry)) = none := rfl
  rw [halo]
  cases hcase : rowsFor L rows with
  | nil => simp
  | cons r0 rs =>
    have hsubnd : ((r0 :: rs).map (fun r => (r.label, r.pos))).Nodup := by
      rw [← hcase]
      refine List.Nodup.sublist ?_ hnd
      exact List.Sublist.map _ (List.filter_sublist rows)
    have hconst : ∀ r ∈ r0 :: rs, r.label = L := by
      intro r hr
      rw [← hcase] at hr
      have := List.of_mem_filter hr
      simpa using this
    exact foldl_stepEntry_none r0 rs (nodup_pos_of_nodup_pairs hsubnd hconst)

theorem sum_map_one {α : Type} : ∀ l : List α, (l.map (fun _ => (1 : Nat))).sum = l.length := by
  intro l
  induction l with
  | nil => rfl
  | cons a t ih => simp [ih]; omega

theorem length_flatMap_of_length_one {α β : Type} (f : α → List β) :
    ∀ l : List α, (∀ a ∈ l, (f a).length = 1) → (l.flatMap f).length = l.length := by
  intro l
  induction l with
  | nil => intro _; rfl
  | cons a t ih =>
    intro h
    rw [List.flatMap_cons, List.length_append, h a (List.mem_cons_self a t),
      ih (fun x hx => h x (List.mem_cons_of_mem a hx)), List.length_cons]
    omega

theorem sum_filter_split {α : Type} (p : α → Bool) (w : α → Nat) :
    ∀ l : List α,
      ((l.filter p).map w).sum + ((l.filter (fun a => ! p a)).map w).sum = (l.map w).sum := by
  intro l
  induction l with
  | nil => rfl
  | cons a t ih =>
    by_cases hp : p a
    · simp [List.filter_cons, hp, List.sum_cons]
      omega
    · simp [List.filter_cons, hp, List.sum_cons]
      omega

/-- Splitting a weighted sum over the fibers of a classifier: if the keys
are distinct and cover every element, summing the per-key sums gives the
total. -/
theorem sum_fibers {κ α : Type} [DecidableEq κ] (f : α → κ) (w : α → Nat) :
    ∀ (keys : List κ) (l : List α), keys.Nodup → (∀ a ∈ l, f a ∈ keys) →
      (keys.map (fun L => ((l.filter (fun a => decide (f a = L))).map w).sum)).sum =
        (l.map w).sum := by
  intro keys
  induction keys with
  | nil =>
    intro l _ hcov
    cases l with
    | nil => rfl
    | cons a t => exact absurd (hcov a (List.mem_cons_self a t)) (by simp)
  | cons k ks ih =>
    intro l hnd hcov
    rw [List.nodup_cons] at hnd
    rw [List.map_cons, List.sum_cons]
    have hks : (ks.map (fun L =>
        ((l.filter (fun a => decide (f a = L))).map w).sum)).sum =
        (ks.map (fun L =>
        (((l.filter (fun a => ! decide (f a = k))).filter
          (fun a => decide (f a = L))).map w).sum)).sum := by
      apply congrArg
      apply List.map_congr_left
      intro L hL
      have hLk : L ≠ k := fun h => hnd.1 (h ▸ hL)
      congr 1
      apply congrArg
      rw [List.filter_filter]
      apply List.filter_congr
      intro a _
      by_cases hf : f a = L
      · have hfk : ¬ f a = k := by rw [hf]; exact hLk
        simp [hf, hfk, hLk]
      · simp [hf]
    rw [hks, ih _ hnd.2 ?_]
    · exact sum_filter_split (fun a => decide (f a = k)) w l
    · intro a ha
      have := hcov a (List.mem_of_mem_filter ha)
      have hne := List.of_mem_filter ha
      simp only [Bool.not_eq_true', decide_eq_false_iff_not] at hne
      rcases List.mem_cons.1 this with h | h
      · exact absurd h hne
      · exact h

theorem buildBreakdown_keys_nodup :
    ∀ (rows : List PctRow) (acc : List (String × BEntry)),
      (acc.map Prod.fst).Nodup → ((List.foldl addRow acc rows).map Prod.fst).Nodup := by
  intro rows
  induction rows with
  | nil => intro acc h; exact h
  | cons r rows ih =>
    intro acc h
    rw [List.foldl_cons]
    apply ih
    unfold addRow
    rw [map_fst_upsert]
    split
    · exact h
    · rename_i hnm
      simp only [List.nodup_append, List.nodup_cons]
      refine ⟨h, by simp, ?_⟩
      intro a ha hb
      simp only [List.mem_cons, List.not_mem_nil, or_false] at hb
      exact hnm (hb ▸ ha)

theorem alookup_isSome_of_mem_keys {κ ν : Type} [DecidableEq κ] {k : κ} :
    ∀ {l : List (κ × ν)}, k ∈ l.map Prod.fst → alookup k l ≠ none := by
  intro l hm
  rw [Ne, alookup_eq_none_iff]
  exact fun h => h hm

theorem groupRows_count_sum (rows : List JRow) :
    ((groupRows rows).map (fun g => g.count)).sum = rows.length := by
  unfold groupRows
  rw [List.map_map]
  have h := sum_fibers keyOf (fun _ => (1 : Nat)) ((rows.map keyOf).dedup) rows
    (List.nodup_dedup _) (fun a ha => List.mem_dedup.2 (List.mem_map_of_mem keyOf ha))
  rw [sum_map_one] at h
  rw [← h]
  apply congrArg
  apply List.map_congr_left
  intro k _
  simp only [Function.comp_apply]
  rw [sum_map_one]

theorem withPct_map_count (gs : List GroupedRow) :
    (withPct gs).map (fun r => r.count) = gs.map (fun g => g.count) := by
  unfold withPct
  rw [List.map_map]
  rfl

theorem withPct_map_labelpos (gs : List GroupedRow) :
    (withPct gs).map (fun r => (r.label, r.pos)) = gs.map (fun g => (g.label, g.pos)) := by
  unfold withPct
  rw [List.map_map]
  rfl

theorem groupRows_keys_nodup (rows : List JRow) :
    ((groupRows rows).map (fun g => (g.label, g.second, g.pos))).Nodup := by
  unfold groupRows
  rw [List.map_map]
  have heq : ((fun g : GroupedRow => (g.label, g.second, g.pos)) ∘ fun k =>
      ({ label := k.1, second := k.2.1, pos := k.2.2,
         count := (rows.filter (fun r => decide (keyOf r = k))).length,
         pkey := match (rows.filter (fun r => decide (keyOf r = k))).head? with
           | some r => r.pkey
           | none => "" } : GroupedRow)) = id := by
    funext k
    rfl
  rw [heq, List.map_id]
  exact List.nodup_dedup _

theorem mem_groupRows {rows : List JRow} {g : GroupedRow} (hg : g ∈ groupRows rows) :
    ∃ r ∈ rows, r.label = g.label ∧ r.second = g.second ∧ r.pos = g.pos := by
  unfold groupRows at hg
  rw [List.mem_map] at hg
  obtain ⟨k, hk, rfl⟩ := hg
  rw [List.mem_dedup] at hk
  obtain ⟨r, hr, hkr⟩ := List.mem_map.1 hk
  refine ⟨r, hr, ?_, ?_, ?_⟩ <;> rw [← hkr] <;> rfl

theorem nodup_labelpos (gs : List GroupedRow)
    (hkeys : (gs.map (fun g => (g.label, g.second, g.pos))).Nodup)
    (hdet : ∀ g ∈ gs, ∀ g2 ∈ gs, g.label = g2.label → g.second = g2.second) :
    (gs.map (fun g => (g.label, g.pos))).Nodup := by
  have heq : gs.map (fun g => (g.label, g.pos)) =
      (gs.map (fun g => (g.label, g.second, g.pos))).map (fun t => (t.1, t.2.2)) := by
    rw [List.map_map]
    rfl
  rw [heq]
  refine List.Nodup.map_on ?_ hkeys
  intro x hx y hy hxy
  obtain ⟨g, hg, rfl⟩ := List.mem_map.1 hx
  obtain ⟨g2, hg2, rfl⟩ := List.mem_map.1 hy
  simp only [Prod.mk.injEq] at hxy ⊢
  exact ⟨hxy.1, hdet g hg g2 hg2 hxy.1, hxy.2⟩

theorem mem_groupJoinRows {db : Store} {vid : Int} {r : JRow}
    (hr : r ∈ groupJoinRows db vid) :
    (r.label = "Non-attached" ∧ r.second = "NI") ∨
      ∃ g ∈ db.groups, r.label = g.label ∧ r.second = g.short_label := by
  unfold groupJoinRows at hr
  rw [List.mem_flatMap] at hr
  obtain ⟨mv, _, hr2⟩ := hr
  rcases hmatch : db.groups.filter (fun g => decide (mv.group_code = some g.code)) with
    _ | ⟨g, gs⟩
  · rw [hmatch] at hr2
    simp only [List.mem_singleton] at hr2
    subst hr2
    exact Or.inl ⟨rfl, rfl⟩
  · rw [hmatch] at hr2
    rw [List.mem_map] at hr2
    obtain ⟨g2, hg2, rfl⟩ := hr2
    refine Or.inr ⟨g2, ?_, rfl, rfl⟩
    exact List.mem_of_mem_filter (hmatch ▸ hg2)

theorem groupJoinRows_secondDet (db : Store) (vid : Int)
    (hH1 : ∀ g ∈ db.groups, ∀ g2 ∈ db.groups,
      g.label = g2.label → g.short_label = g2.short_label)
    (hH2 : ∀ g ∈ db.groups, g.label = "Non-attached" → g.short_label = "NI") :
    ∀ r ∈ groupJoinRows db vid, ∀ r2 ∈ groupJoinRows db vid,
      r.label = r2.label → r.second = r2.second := by
  intro r hr r2 hr2 hlab
  rcases mem_groupJoinRows hr with ⟨ha1, ha2⟩ | ⟨g, hg, ha1, ha2⟩ <;>
    rcases mem_groupJoinRows hr2 with ⟨hb1, hb2⟩ | ⟨g2, hg2, hb1, hb2⟩
  · rw [ha2, hb2]
  · rw [ha2, hb2]
    exact (hH2 g2 hg2 (by rw [← hb1, ← hlab, ha1])).symm
  · rw [ha2, hb2]
    exact hH2 g hg (by rw [← ha1, hlab, hb1])
  · rw [ha2, hb2]
    exact hH1 g hg g2 hg2 (by rw [← ha1, hlab, hb1])

theorem filter_code_len_le_one (gs : List Group) (hcode : (gs.map Group.code).Nodup)
    (x : Option String) :
    (gs.filter (fun g => decide (x = some g.code))).length ≤ 1 := by
  induction gs with
  | nil => simp
  | cons g t ih =>
    rw [List.map_cons, List.nodup_cons] at hcode
    by_cases hx : x = some g.code
    · rw [List.filter_cons_of_pos (by simp [hx])]
      have ht : t.filter (fun g2 => decide (x = some g2.code)) = [] := by
        rw [List.filter_eq_nil_iff]
        intro g2 hg2
        simp only [decide_eq_true_eq]
        intro h2
        apply hcode.1
        have : g.code = g2.code := by
          rw [hx] at h2
          exact Option.some.inj h2
        exact this ▸ List.mem_map_of_mem Group.code hg2
      rw [ht]
      simp
    · rw [List.filter_cons_of_neg (by simp [hx])]
      exact ih hcode.2

theorem groupJoinRows_length (db : Store) (vid : Int)
    (hcode : (db.groups.map Group.code).Nodup) :
    (groupJoinRows db vid).length =
      (db.member_votes.filter (fun mv => decide (mv.vote_id = vid))).length := by
  unfold groupJoinRows
  apply length_flatMap_of_length_one
  intro mv _
  rcases hmatch : db.groups.filter (fun g => decide (mv.group_code = some g.code)) with
    _ | ⟨g, gs⟩
  · simp [hmatch]
  · have hle := filter_code_len_le_one db.groups hcode mv.group_code
    rw [hmatch] at hle
    simp only [List.length_cons] at hle
    have : gs = [] := by
      cases gs with
      | nil => rfl
      | cons a t => simp at hle
    subst this
    simp [hmatch]

theorem sumCounts_buildBreakdown (rows : List PctRow)
    (hnd : (rows.map (fun r => (r.label, r.pos))).Nodup) :
    sumCounts (buildBreakdown rows) = (rows.map (fun r => r.count)).sum := by
  unfold sumCounts
  have hkeys : ((buildBreakdown rows).map Prod.fst).Nodup := by
    unfold buildBreakdown
    exact buildBreakdown_keys_nodup rows [] (by simp)
  have hterm : ∀ p ∈ buildBreakdown rows,
      posTotal p.2 = ((rowsFor p.1 rows).map (fun r => r.count)).sum := by
    intro p hp
    have hmem : (p.1, p.2) ∈ buildBreakdown rows := by
      exact hp
    have halo := alookup_of_mem_nodup hkeys hmem
    rw [buildBreakdown_lookup hnd p.1] at halo
    cases hcase : rowsFor p.1 rows with
    | nil =>
      rw [hcase] at halo
      cases halo
    | cons r0 rs =>
      rw [hcase] at halo
      simp only [] at halo
      have he := Option.some.inj halo
      rw [← he]
      unfold posTotal
      rw [List.map_map]
      rfl
  calc ((buildBreakdown rows).map (fun p => posTotal p.2)).sum
      = ((buildBreakdown rows).map (fun p =>
          ((rowsFor p.1 rows).map (fun r => r.count)).sum)).sum := by
        rw [List.map_congr_left hterm]
    _ = (((buildBreakdown rows).map Prod.fst).map (fun L =>
          ((rowsFor L rows).map (fun r => r.count)).sum)).sum := by
        rw [List.map_map]
        rfl
    _ = (rows.map (fun r => r.count)).sum := by
        refine sum_fibers (fun r => r.label) (fun r => r.count) _ rows hkeys ?_
        intro r hr
        by_contra hmem
        have hnone : alookup r.label (buildBreakdown rows) = none :=
          (alookup_eq_none_iff _ _).2 hmem
        rw [buildBreakdown_lookup hnd r.label] at hnone
        have : r ∈ rowsFor r.label rows := by
          unfold rowsFor
          rw [List.mem_filter]
          exact ⟨hr, by simp⟩
        cases hcase : rowsFor r.label rows with
        | nil => rw [hcase] at this; cases this
        | cons r0 rs => rw [hcase] at hnone; cases hnone

theorem of_mem_withPct {gs : List GroupedRow} {r : PctRow} (hr : r ∈ withPct gs) :
    ∃ g ∈ gs, r.label = g.label ∧ r.second = g.second ∧ r.pos = g.pos := by
  obtain ⟨g, hg, rfl⟩ := List.mem_map.1 hr
  exact ⟨g, hg, rfl, rfl, rfl⟩

theorem orderedRows_labelpos_nodup (db : Store) (vid : Int)
    (hH1 : ∀ g ∈ db.groups, ∀ g2 ∈ db.groups,
      g.label = g2.label → g.short_label = g2.short_label)
    (hH2 : ∀ g ∈ db.groups, g.label = "Non-attached" → g.short_label = "NI") :
    ((orderedRows (groupJoinRows db vid)).map (fun r => (r.label, r.pos))).Nodup := by
  have hperm := (List.perm_insertionSort breakdownLe
    (withPct (groupRows (groupJoinRows db vid)))).map (fun r => (r.label, r.pos))
  unfold orderedRows
  rw [hperm.nodup_iff]
  rw [withPct_map_labelpos]
  refine nodup_labelpos _ (groupRows_keys_nodup _) ?_
  intro g hg g2 hg2 hlab
  obtain ⟨r, hr, hr1, hr2, _⟩ := mem_groupRows hg
  obtain ⟨r2, hr2m, hr21, hr22, _⟩ := mem_groupRows hg2
  rw [← hr2, ← hr22]
  exact groupJoinRows_secondDet db vid hH1 hH2 r hr r2 hr2m (by rw [hr1, hr21, hlab])

theorem second_NI_of_NA (db : Store) (vid : Int)
    (hH2 : ∀ g ∈ db.groups, g.label = "Non-attached" → g.short_label = "NI") :
    ∀ r ∈ orderedRows (groupJoinRows db vid),
      r.label = "Non-attached" → r.second = "NI" := by
  intro r hr hlab
  unfold orderedRows at hr
  rw [List.mem_insertionSort] at hr
  obtain ⟨g, hg, h1, h2, _⟩ := of_mem_withPct hr
  obtain ⟨jr, hjr, hj1, hj2, _⟩ := mem_groupRows hg
  rcases mem_groupJoinRows hjr with ⟨hs1, hs2⟩ | ⟨gg, hgg, hs1, hs2⟩
  · rw [h2, ← hj2, hs2]
  · rw [h2, ← hj2, hs2]
    exact hH2 gg hgg (by rw [← hs1, hj1, ← h1, hlab])

theorem sentinel_row_mem (db : Store) (vid : Int) (mv : MemberVote)
    (hmv : mv ∈ db.member_votes) (hvid : mv.vote_id = vid)
    (hnomatch : ∀ g ∈ db.groups, some g.code ≠ mv.group_code) :
    ∃ r ∈ orderedRows (groupJoinRows db vid),
      r.label = "Non-attached" ∧ r.pos = mv.position := by
  have hjr : (⟨"Non-attached", "NI", mv.position,
      (match mv.group_code with | some c => c | none => "NI")⟩ : JRow) ∈
      groupJoinRows db vid := by
    unfold groupJoinRows
    rw [List.mem_flatMap]
    refine ⟨mv, ?_, ?_⟩
    · rw [List.mem_filter]
      exact ⟨hmv, by simp [hvid]⟩
    · have hfil : db.groups.filter (fun g => decide (mv.group_code = some g.code)) = [] := by
        rw [List.filter_eq_nil_iff]
        intro g hg
        simp only [decide_eq_true_eq]
        exact fun h => hnomatch g hg h.symm
      simp [hfil]
  have hkded : ("Non-attached", "NI", mv.position) ∈
      ((groupJoinRows db vid).map keyOf).dedup :=
    List.mem_dedup.2 (List.mem_map.2 ⟨_, hjr, rfl⟩)
  have hgmem : ∃ g ∈ groupRows (groupJoinRows db vid),
      g.label = "Non-attached" ∧ g.pos = mv.position := by
    unfold groupRows
    exact ⟨_, List.mem_map_of_mem _ hkded, rfl, rfl⟩
  obtain ⟨g, hg, hg1, hg2⟩ := hgmem
  refine ⟨⟨g.label, g.second, g.pos, g.count,
    round2h (g.count : Int)
      (partTotal (groupRows (groupJoinRows db vid)) g.pkey : Int)⟩, ?_, hg1, hg2⟩
  unfold orderedRows
  rw [List.mem_insertionSort]
  unfold withPct
  exact List.mem_map_of_mem _ hg

/-- C3, amended: provided no two groups share a label with different
short labels, and any group labelled with the sentinel also carries the
sentinel short label (otherwise the Python dict overwrites one position
entry with another; see the counterexample), the counts reported by
`get_group_voting_breakdown` sum to the number of `member_votes` rows of
the vote, and member-vote rows whose group code matches no `groups` row
are bucketed under the sentinel label `"Non-attached"` with short label
`"NI"` rather than excluded. -/
theorem c3_group_breakdown (db : Store) (vid : Int)
    (hcode : (db.groups.map Group.code).Nodup)
    (hH1 : ∀ g ∈ db.groups, ∀ g2 ∈ db.groups,
      g.label = g2.label → g.short_label = g2.short_label)
    (hH2 : ∀ g ∈ db.groups, g.label = "Non-attached" → g.short_label = "NI")
    (v : Vote) (hv : db.votes.find? (fun x => decide (x.id = vid)) = some v) :
    ∃ d, get_group_voting_breakdown (Except.ok db) vid = Except.ok (.found d) ∧
      sumCounts d.group_breakdown =
        (db.member_votes.filter (fun mv => decide (mv.vote_id = vid))).length ∧
      ∀ mv ∈ db.member_votes, mv.vote_id = vid →
        (∀ g ∈ db.groups, some g.code ≠ mv.group_code) →
        ∃ e, alookup "Non-attached" d.group_breakdown = some e ∧ e.second = "NI" ∧
          (alookup mv.position e.positions).isSome = true := by
  have hnd := orderedRows_labelpos_nodup db vid hH1 hH2
  simp only [get_group_voting_breakdown, hv]
  refine ⟨_, rfl, ?_, ?_⟩
  · rw [sumCounts_buildBreakdown _ hnd]
    have hperm := (List.perm_insertionSort breakdownLe
      (withPct (groupRows (groupJoinRows db vid)))).map (fun r => r.count)
    unfold orderedRows
    rw [hperm.sum_eq, withPct_map_count, groupRows_count_sum,
      groupJoinRows_length db vid hcode]
  · intro mv hmv hvid hnomatch
    obtain ⟨rNA, hrNA, hNA1, hNA2⟩ := sentinel_row_mem db vid mv hmv hvid hnomatch
    have hrfor : rNA ∈ rowsFor "Non-attached" (orderedRows (groupJoinRows db vid)) := by
      unfold rowsFor
      rw [List.mem_filter]
      exact ⟨hrNA, by simp [hNA1]⟩
    cases hcase : rowsFor "Non-attached" (orderedRows (groupJoinRows db vid)) with
    | nil =>
      rw [hcase] at hrfor
      cases hrfor
    | cons r0 rs =>
      have halo := buildBreakdown_lookup hnd "Non-attached"
      rw [hcase] at halo
      refine ⟨_, halo, ?_, ?_⟩
      · have hr0 : r0 ∈ rowsFor "Non-attached" (orderedRows (groupJoinRows db vid)) := by
          rw [hcase]
          exact List.mem_cons_self r0 rs
        have hr0o : r0 ∈ orderedRows (groupJoinRows db vid) := List.mem_of_mem_filter hr0
        have hr0l : r0.label = "Non-attached" := by
          simpa using List.of_mem_filter hr0
        exact second_NI_of_NA db vid hH2 r0 hr0o hr0l
      · have hrmem : rNA ∈ r0 :: rs := by
          rw [← hcase]
          exact hrfor
        have hkey : mv.position ∈ ((r0 :: rs).map (fun r => (r.pos,
            ({ count := r.count, percentage := r.pct } : PosEntry)))).map Prod.fst := by
          rw [List.map_map]
          exact List.mem_map.2 ⟨rNA, hrmem, by simp [hNA2]⟩
        have hne := alookup_isSome_of_mem_keys (ν := PosEntry) hkey
        cases halkp : alookup mv.position ((r0 :: rs).map (fun r => (r.pos,
            ({ count := r.count, percentage := r.pct } : PosEntry)))) with
        | none => exact absurd halkp hne
        | some _ => rfl

/-- C3, witness: the amended statement instantiated on a store with one
real group and one group-less member vote. -/
theorem c3_witness :
    (dbC3w.groups.map Group.code).Nodup ∧
      dbC3w.votes.find? (fun x => decide (x.id = 1)) = some (mkVote 1 "2024-01-01" 2 0) ∧
      ∃ d, get_group_voting_breakdown (Except.ok dbC3w) 1 = Except.ok (.found d) ∧
        sumCounts d.group_breakdown =
          (dbC3w.member_votes.filter (fun mv => decide (mv.vote_id = 1))).length ∧
        ∀ mv ∈ dbC3w.member_votes, mv.vote_id = 1 →
          (∀ g ∈ dbC3w.groups, some g.code ≠ mv.group_code) →
          ∃ e, alookup "Non-attached" d.group_breakdown = some e ∧ e.second = "NI" ∧
            (alookup mv.position e.positions).isSome = true :=
  ⟨by decide, by decide,
    c3_group_breakdown dbC3w 1 (by decide) (by decide) (by decide)
      (mkVote 1 "2024-01-01" 2 0) (by decide)⟩

/-- C3, counterexample: on a store where two group codes share the label
`"G"` with different short labels, both FOR rows target
`positions["FOR"]` of the single `"G"` entry, the second write overwrites
the first, and the reported counts sum to 1 while the vote has 2
`member_votes` rows. -/
theorem c3_counterexample :
    sumCounts (groupBreakdownOf (get_group_voting_breakdown (Except.ok dbC3) 1)) ≠
      (dbC3.member_votes.filter (fun mv => decide (mv.vote_id = 1))).length := by
  decide

theorem filter_key_len_le_one {α β : Type} [DecidableEq β] (f : α → β) (l : List α)
    (h : (l.map f).Nodup) (b : β) :
    (l.filter (fun a => decide (f a = b))).length ≤ 1 := by
  induction l with
  | nil => simp
  | cons a t ih =>
    rw [List.map_cons, List.nodup_cons] at h
    by_cases hx : f a = b
    · rw [List.filter_cons_of_pos (by simp [hx])]
      have ht : t.filter (fun a2 => decide (f a2 = b)) = [] := by
        rw [List.filter_eq_nil_iff]
        intro a2 ha2
        simp only [decide_eq_true_eq]
        intro h2
        exact h.1 ((hx.trans h2.symm) ▸ List.mem_map_of_mem f ha2)
      rw [ht]
      simp
    · rw [List.filter_cons_of_neg (by simp [hx])]
      exact ih h.2

theorem length_flatMap_eq_countP {α β : Type} (f : α → List β) (p : α → Bool) :
    ∀ l : List α, (∀ a ∈ l, (f a).length = if p a then 1 else 0) →
      (l.flatMap f).length = l.countP p := by
  intro l
  induction l with
  | nil => intro _; rfl
  | cons a t ih =>
    intro h
    rw [List.flatMap_cons, List.length_append, h a (List.mem_cons_self a t),
      ih (fun x hx => h x (List.mem_cons_of_mem a hx)), List.countP_cons]
    by_cases hp : p a
    · simp only [hp, if_true]
      omega
    · simp only [hp, if_false]
      omega

theorem country_inner_length (db : Store) (mv : MemberVote)
    (hmid : (db.members.map Member.id).Nodup)
    (hcc : (db.countries.map Country.code).Nodup) :
    ((db.members.filter (fun m => decide (m.id = mv.member_id))).flatMap (fun m =>
      (db.countries.filter (fun c => decide (c.code = m.country_code))).map (fun c =>
        ({ label := c.label, second := c.code, pos := mv.position,
           pkey := c.code } : JRow)))).length =
      if countryMatched db mv then 1 else 0 := by
  have hmle := filter_key_len_le_one Member.id db.members hmid mv.member_id
  rcases hfm : db.members.filter (fun m => decide (m.id = mv.member_id)) with _ | ⟨m, ms⟩
  · have hcm : countryMatched db mv = false := by
      unfold countryMatched
      rw [List.any_eq_false]
      intro m hm
      simp only [Bool.and_eq_true, decide_eq_true_eq, not_and]
      intro hid _
      have : m ∈ db.members.filter (fun m2 => decide (m2.id = mv.member_id)) :=
        List.mem_filter.2 ⟨hm, by simp [hid]⟩
      rw [hfm] at this
      cases this
    rw [hfm, hcm]
    rfl
  · have hms : ms = [] := by
      rw [hfm] at hmle
      cases ms with
      | nil => rfl
      | cons a t => simp at hmle
    subst hms
    have hmmem : m ∈ db.members ∧ m.id = mv.member_id := by
      have : m ∈ db.members.filter (fun m2 => decide (m2.id = mv.member_id)) := by
        rw [hfm]
        exact List.mem_cons_self m []
      rw [List.mem_filter, decide_eq_true_eq] at this
      exact this
    have hcle := filter_key_len_le_one Country.code db.countries hcc m.country_code
    rw [hfm, List.flatMap_cons, List.flatMap_nil, List.length_append]
    rcases hfc : db.countries.filter (fun c => decide (c.code = m.country_code)) with
      _ | ⟨c, cs⟩
    · have hcm : countryMatched db mv = false := by
        unfold countryMatched
        rw [List.any_eq_false]
        intro m2 hm2
        simp only [Bool.and_eq_true, decide_eq_true_eq, not_and]
        intro hid2 hany
        have hm2f : m2 ∈ db.members.filter (fun x => decide (x.id = mv.member_id)) :=
          List.mem_filter.2 ⟨hm2, by simp [hid2]⟩
        rw [hfm] at hm2f
        have hm2m : m2 = m := by
          rcases List.mem_cons.1 hm2f with h | h
          · exact h
          · cases h
        subst hm2m
        rw [List.any_eq_true] at hany
        obtain ⟨c, hc, hc2⟩ := hany
        rw [decide_eq_true_eq] at hc2
        have : c ∈ db.countries.filter (fun x => decide (x.code = m2.country_code)) :=
          List.mem_filter.2 ⟨hc, by simp [hc2]⟩
        rw [hfc] at this
        cases this
      rw [hfc, hcm]
      rfl
    · have hcs : cs = [] := by
        rw [hfc] at hcle
        cases cs with
        | nil => rfl
        | cons a t => simp at hcle
      subst hcs
      have hcmem : c ∈ db.countries ∧ c.code = m.country_code := by
        have : c ∈ db.countries.filter (fun x => decide (x.code = m.country_code)) := by
          rw [hfc]
          exact List.mem_cons_self c []
        rw [List.mem_filter, decide_eq_true_eq] at this
        exact this
      have hcm : countryMatched db mv = true := by
        unfold countryMatched
        rw [List.any_eq_true]
        refine ⟨m, hmmem.1, ?_⟩
        rw [Bool.and_eq_true, decide_eq_true_eq]
        refine ⟨hmmem.2, ?_⟩
        rw [List.any_eq_true]
        exact ⟨c, hcmem.1, by simp [hcmem.2]⟩
      rw [hfc, hcm]
      rfl

theorem countryJoinRows_length (db : Store) (vid : Int)
    (hmid : (db.members.map Member.id).Nodup)
    (hcc : (db.countries.map Country.code).Nodup) :
    (countryJoinRows db vid).length =
      ((db.member_votes.filter (fun mv => decide (mv.vote_id = vid))).filter
        (countryMatched db)).length := by
  unfold countryJoinRows
  rw [← List.countP_eq_length_filter]
  exact length_flatMap_eq_countP _ _ _
    (fun mv _ => country_inner_length db mv hmid hcc)

theorem mem_countryJoinRows {db : Store} {vid : Int} {r : JRow}
    (hr : r ∈ countryJoinRows db vid) :
    ∃ c ∈ db.countries, r.label = c.label ∧ r.second = c.code := by
  unfold countryJoinRows at hr
  rw [List.mem_flatMap] at hr
  obtain ⟨mv, _, hr2⟩ := hr
  rw [List.mem_flatMap] at hr2
  obtain ⟨m, _, hr3⟩ := hr2
  rw [List.mem_map] at hr3
  obtain ⟨c, hc, rfl⟩ := hr3
  exact ⟨c, List.mem_of_mem_filter hc, rfl, rfl⟩

theorem countryOrderedRows_labelpos_nodup (db : Store) (vid : Int)
    (hclab : ∀ c ∈ db.countries, ∀ c2 ∈ db.countries, c.label = c2.label → c.code = c2.code) :
    ((orderedRows (countryJoinRows db vid)).map (fun r => (r.label, r.pos))).Nodup := by
  have hperm := (List.perm_insertionSort breakdownLe
    (withPct (groupRows (countryJoinRows db vid)))).map (fun r => (r.label, r.pos))
  unfold orderedRows
  rw [hperm.nodup_iff]
  rw [withPct_map_labelpos]
  refine nodup_labelpos _ (groupRows_keys_nodup _) ?_
  intro g hg g2 hg2 hlab
  obtain ⟨r, hr, hr1, hr2, _⟩ := mem_groupRows hg
  obtain ⟨r2, hr2m, hr21, hr22, _⟩ := mem_groupRows hg2
  obtain ⟨c, hc, hc1, hc2⟩ := mem_countryJoinRows hr
  obtain ⟨c2, hc2m, hc21, hc22⟩ := mem_countryJoinRows hr2m
  rw [← hr2, ← hr22, hc2, hc22]
  exact hclab c hc c2 hc2m (by rw [← hc1, ← hc21, hr1, hr21, hlab])

/-- C10: `get_country_voting_patterns` joins each member-vote row through
`members` and `countries` with inner joins: the reported counts sum to
the number of member-vote rows of the vote whose member exists and whose
member's country exists, which is at most — and can be strictly less
than — the vote's total member-vote count; every key of the breakdown is
a real country label, so unlike the group breakdown there is no sentinel
bucket for unmatched rows. -/
theorem c10_country_patterns (db : Store) (vid : Int)
    (hmid : (db.members.map Member.id).Nodup)
    (hcc : (db.countries.map Country.code).Nodup)
    (hclab : ∀ c ∈ db.countries, ∀ c2 ∈ db.countries, c.label = c2.label → c.code = c2.code)
    (v : Vote) (hv : db.votes.find? (fun x => decide (x.id = vid)) = some v) :
    ∃ d, get_country_voting_patterns (Except.ok db) vid = Except.ok (.found d) ∧
      sumCounts d.country_breakdown =
        ((db.member_votes.filter (fun mv => decide (mv.vote_id = vid))).filter
          (countryMatched db)).length ∧
      sumCounts d.country_breakdown ≤
        (db.member_votes.filter (fun mv => decide (mv.vote_id = vid))).length ∧
      ∀ p ∈ d.country_breakdown, ∃ c ∈ db.countries, p.1 = c.label := by
  have hnd := countryOrderedRows_labelpos_nodup db vid hclab
  simp only [get_country_voting_patterns, hv]
  have hsum : sumCounts (buildBreakdown (orderedRows (countryJoinRows db vid))) =
      ((db.member_votes.filter (fun mv => decide (mv.vote_id = vid))).filter
        (countryMatched db)).length := by
    rw [sumCounts_buildBreakdown _ hnd]
    have hperm := (List.perm_insertionSort breakdownLe
      (withPct (groupRows (countryJoinRows db vid)))).map (fun r => r.count)
    unfold orderedRows
    rw [hperm.sum_eq, withPct_map_count, groupRows_count_sum,
      countryJoinRows_length db vid hmid hcc]
  refine ⟨_, rfl, hsum, ?_, ?_⟩
  · rw [hsum]
    exact List.length_filter_le _ _
  · intro p hp
    have hkeys : ((buildBreakdown (orderedRows (countryJoinRows db vid))).map
        Prod.fst).Nodup := by
      unfold buildBreakdown
      exact buildBreakdown_keys_nodup _ [] (by simp)
    have halo := alookup_of_mem_nodup hkeys (show (p.1, p.2) ∈ _ from hp)
    rw [buildBreakdown_lookup hnd p.1] at halo
    cases hcase : rowsFor p.1 (orderedRows (countryJoinRows db vid)) with
    | nil =>
      rw [hcase] at halo
      cases halo
    | cons r0 rs =>
      have hr0 : r0 ∈ rowsFor p.1 (orderedRows (countryJoinRows db vid)) := by
        rw [hcase]
        exact List.mem_cons_self r0 rs
      have hr0o : r0 ∈ orderedRows (countryJoinRows db vid) := List.mem_of_mem_filter hr0
      have hr0l : r0.label = p.1 := by
        simpa using List.of_mem_filter hr0
      unfold orderedRows at hr0o
      rw [List.mem_insertionSort] at hr0o
      obtain ⟨g, hg, h1, _, _⟩ := of_mem_withPct hr0o
      obtain ⟨jr, hjr, hj1, _, _⟩ := mem_groupRows hg
      obtain ⟨c, hc, hc1, _⟩ := mem_countryJoinRows hjr
      exact ⟨c, hc, by rw [← hr0l, h1, ← hj1, hc1]⟩

/-- C10, witness: on a store where one of the two member votes of vote 1
references a missing member, the reported counts sum to 1 while the vote
has 2 member-vote rows — the unmatched row is silently dropped and no
sentinel bucket appears. -/
theorem c10_witness :
    (dbC10.members.map Member.id).Nodup ∧
      (dbC10.countries.map Country.code).Nodup ∧
      (∃ d, get_country_voting_patterns (Except.ok dbC10) 1 = Except.ok (.found d) ∧
        sumCounts d.country_breakdown =
          ((dbC10.member_votes.filter (fun mv => decide (mv.vote_id = 1))).filter
            (countryMatched dbC10)).length ∧
        sumCounts d.country_breakdown ≤
          (dbC10.member_votes.filter (fun mv => decide (mv.vote_id = 1))).length ∧
        ∀ p ∈ d.country_breakdown, ∃ c ∈ dbC10.countries, p.1 = c.label) ∧
      sumCounts (countryBreakdownOf (get_country_voting_patterns (Except.ok dbC10) 1)) <
        (dbC10.member_votes.filter (fun mv => decide (mv.vote_id = 1))).length :=
  ⟨by decide, by decide,
    c10_country_patterns dbC10 1 (by decide) (by decide) (by decide)
      (mkVote 1 "2024-01-01" 2 0) (by decide),
    by decide⟩

theorem natCast_list_sum (l : List Nat) :
    ((l.sum : Nat) : Int) = (l.map (fun n : Nat => (n : Int))).sum := by
  induction l with
  | nil => rfl
  | cons a t ih =>
    rw [List.map_cons, List.sum_cons, List.sum_cons, ← ih]
    push_cast
    ring

theorem int_div_eq_floor (n d : Int) (hd : 0 < d) : n / d = ⌊(n : ℚ) / (d : ℚ)⌋ := by
  obtain ⟨m, rfl⟩ : ∃ m : Nat, d = (m : Int) := ⟨d.toNat, (Int.toNat_of_nonneg hd.le).symm⟩
  have h := Rat.floor_intCast_div_natCast n m
  rw [← h]
  norm_cast

/-- The rounded window percentage differs from the exact ratio
`10000 * num / den` by at most half a hundredth. -/
theorem round2h_bound (c T : Int) (hT : 0 < T) :
    |((round2h c T : Int) : ℚ) - 10000 * (c : ℚ) / (T : ℚ)| ≤ 1 / 2 := by
  have hT2 : (0 : Int) < 2 * T := by omega
  have hTQ : ((T : Int) : ℚ) ≠ 0 := by
    exact_mod_cast hT.ne.symm
  have hfloor : round2h c T = ⌊((20000 * c + T : Int) : ℚ) / ((2 * T : Int) : ℚ)⌋ :=
    int_div_eq_floor _ _ hT2
  have hy : ((20000 * c + T : Int) : ℚ) / ((2 * T : Int) : ℚ) =
      10000 * (c : ℚ) / (T : ℚ) + 1 / 2 := by
    push_cast
    field_simp
    ring
  rw [hfloor, hy]
  have hle := Int.floor_le (10000 * (c : ℚ) / (T : ℚ) + 1 / 2)
  have hlt := Int.lt_floor_add_one (10000 * (c : ℚ) / (T : ℚ) + 1 / 2)
  rw [abs_le]
  constructor <;> linarith

theorem sum_round2h_bound_aux (T : Int) (hT : 0 < T) :
    ∀ l : List Int,
      |(((l.map (fun c => round2h c T)).sum : Int) : ℚ) -
          10000 * ((l.sum : Int) : ℚ) / (T : ℚ)| ≤ (l.length : ℚ) / 2 := by
  intro l
  induction l with
  | nil => simp
  | cons c l ih =>
    rw [List.map_cons, List.sum_cons, List.sum_cons, List.length_cons]
    have htri : |(((round2h c T + (l.map (fun c => round2h c T)).sum : Int)) : ℚ) -
        10000 * (((c + l.sum : Int)) : ℚ) / (T : ℚ)| ≤
        |((round2h c T : Int) : ℚ) - 10000 * (c : ℚ) / (T : ℚ)| +
          |(((l.map (fun c => round2h c T)).sum : Int) : ℚ) -
            10000 * ((l.sum : Int) : ℚ) / (T : ℚ)| := by
      have heq : (((round2h c T + (l.map (fun c => round2h c T)).sum : Int)) : ℚ) -
          10000 * (((c + l.sum : Int)) : ℚ) / (T : ℚ) =
          (((round2h c T : Int) : ℚ) - 10000 * (c : ℚ) / (T : ℚ)) +
            ((((l.map (fun c => round2h c T)).sum : Int) : ℚ) -
              10000 * ((l.sum : Int) : ℚ) / (T : ℚ)) := by
        push_cast
        ring
      rw [heq]
      exact abs_add _ _
    have hc := round2h_bound c T hT
    have hlen : ((l.length + 1 : Nat) : ℚ) / 2 = (l.length : ℚ) / 2 + 1 / 2 := by
      push_cast
      ring
    rw [hlen]
    calc |(((round2h c T + (l.map (fun c => round2h c T)).sum : Int)) : ℚ) -
        10000 * (((c + l.sum : Int)) : ℚ) / (T : ℚ)| ≤ _ := htri
      _ ≤ 1 / 2 + (l.length : ℚ) / 2 := by
        exact add_le_add hc ih
      _ = (l.length : ℚ) / 2 + 1 / 2 := by ring

/-- A list of at most four rounded shares of a positive total deviates
from 100 percent (10000 hundredths) by at most two hundredths. -/
theorem sum_round2h_bound (l : List Int) (T : Int) (hT : 0 < T) (hsum : l.sum = T)
    (hlen : l.length ≤ 4) :
    |(l.map (fun c => round2h c T)).sum - 10000| ≤ 2 := by
  have h := sum_round2h_bound_aux T hT l
  rw [hsum] at h
  have hTQ : ((T : Int) : ℚ) ≠ 0 := by
    exact_mod_cast hT.ne.symm
  rw [show 10000 * ((T : Int) : ℚ) / (T : ℚ) = 10000 by field_simp] at h
  have hlenQ : ((l.length : Nat) : ℚ) / 2 ≤ 2 := by
    have : ((l.length : Nat) : ℚ) ≤ 4 := by exact_mod_cast hlen
    linarith
  have habs : |(((l.map (fun c => round2h c T)).sum : Int) : ℚ) - 10000| ≤ 2 :=
    le_trans h hlenQ
  have hcast : (((l.map (fun c => round2h c T)).sum - 10000 : Int) : ℚ) =
      (((l.map (fun c => round2h c T)).sum : Int) : ℚ) - 10000 := by
    push_cast
    ring
  have h2 : |(((l.map (fun c => round2h c T)).sum - 10000 : Int) : ℚ)| ≤ ((2 : Int) : ℚ) := by
    rw [hcast]
    exact_mod_cast habs
  rw [← Int.cast_abs] at h2
  exact_mod_cast h2

theorem mem_groupRows_pkey {rows : List JRow} {g : GroupedRow} (hg : g ∈ groupRows rows) :
    ∃ r ∈ rows, r.label = g.label ∧ r.pkey = g.pkey := by
  unfold groupRows at hg
  rw [List.mem_map] at hg
  obtain ⟨k, hk, rfl⟩ := hg
  rw [List.mem_dedup] at hk
  obtain ⟨r, hr, hkr⟩ := List.mem_map.1 hk
  have hrsel : r ∈ rows.filter (fun r2 => decide (keyOf r2 = k)) :=
    List.mem_filter.2 ⟨hr, by simp [hkr]⟩
  cases hsel : rows.filter (fun r2 => decide (keyOf r2 = k)) with
  | nil =>
    rw [hsel] at hrsel
    cases hrsel
  | cons rh tl =>
    have hrh : rh ∈ rows.filter (fun r2 => decide (keyOf r2 = k)) := by
      rw [hsel]
      exact List.mem_cons_self rh tl
    refine ⟨rh, List.mem_of_mem_filter hrh, ?_, ?_⟩
    · have := List.of_mem_filter hrh
      simp only [decide_eq_true_eq] at this
      rw [← this]
      rfl
    · simp [hsel]

theorem groupRows_count_pos {rows : List JRow} {g : GroupedRow}
    (hg : g ∈ groupRows rows) : 0 < g.count := by
  unfold groupRows at hg
  rw [List.mem_map] at hg
  obtain ⟨k, hk, rfl⟩ := hg
  rw [List.mem_dedup] at hk
  obtain ⟨r, hr, hkr⟩ := List.mem_map.1 hk
  have hrsel : r ∈ rows.filter (fun r2 => decide (keyOf r2 = k)) :=
    List.mem_filter.2 ⟨hr, by simp [hkr]⟩
  simp only []
  exact List.length_pos.2 (fun h => by rw [h] at hrsel; cases hrsel)

theorem of_mem_withPct_pct {gs : List GroupedRow} {r : PctRow} (hr : r ∈ withPct gs) :
    ∃ g ∈ gs, r.label = g.label ∧ r.count = g.count ∧
      r.pct = round2h (g.count : Int) (partTotal gs g.pkey : Int) := by
  obtain ⟨g, hg, rfl⟩ := List.mem_map.1 hr
  exact ⟨g, hg, rfl, rfl, rfl⟩

theorem groupRows_pkey_iff_label (db : Store) (vid : Int)
    (hHP : ∀ r ∈ groupJoinRows db vid, ∀ r2 ∈ groupJoinRows db vid,
      (r.label = r2.label ↔ r.pkey = r2.pkey)) :
    ∀ g ∈ groupRows (groupJoinRows db vid), ∀ g2 ∈ groupRows (groupJoinRows db vid),
      (g.label = g2.label ↔ g.pkey = g2.pkey) := by
  intro g hg g2 hg2
  obtain ⟨r, hr, hrl, hrp⟩ := mem_groupRows_pkey hg
  obtain ⟨r2, hr2, hr2l, hr2p⟩ := mem_groupRows_pkey hg2
  rw [← hrl, ← hr2l, ← hrp, ← hr2p]
  exact hHP r hr r2 hr2

theorem filter_label_counts_map (gs : List GroupedRow) (f : GroupedRow → PctRow)
    (hf : ∀ g, (f g).label = g.label ∧ (f g).count = g.count) (L : String) :
    (((gs.map f).filter (fun r => decide (r.label = L))).map (fun r => r.count)).sum =
      ((gs.filter (fun g => decide (g.label = L))).map (fun g => g.count)).sum := by
  induction gs with
  | nil => rfl
  | cons g t ih =>
    rw [List.map_cons]
    by_cases hL : g.label = L
    · rw [List.filter_cons_of_pos (by simp [(hf g).1, hL]),
        List.filter_cons_of_pos (by simp [hL]),
        List.map_cons, List.map_cons, List.sum_cons, List.sum_cons, ih, (hf g).2]
    · rw [List.filter_cons_of_neg (by simp [(hf g).1, hL]),
        List.filter_cons_of_neg (by simp [hL]), ih]

theorem rowsFor_counts_eq (rows : List JRow) (L : String) :
    ((rowsFor L (orderedRows rows)).map (fun r => r.count)).sum =
      (((groupRows rows).filter (fun h => decide (h.label = L))).map
        (fun g => g.count)).sum := by
  have hperm := ((List.perm_insertionSort breakdownLe
    (withPct (groupRows rows))).filter (fun r => decide (r.label = L))).map
    (fun r => r.count)
  unfold orderedRows rowsFor
  rw [hperm.sum_eq]
  exact filter_label_counts_map (groupRows rows) _ (fun g => ⟨rfl, rfl⟩) L

theorem pct_eq_round2h_of_HP (db : Store) (vid : Int)
    (hHP : ∀ r ∈ groupJoinRows db vid, ∀ r2 ∈ groupJoinRows db vid,
      (r.label = r2.label ↔ r.pkey = r2.pkey)) (L : String) :
    ∀ r ∈ rowsFor L (orderedRows (groupJoinRows db vid)),
      r.pct = round2h (r.count : Int)
        (((((groupRows (groupJoinRows db vid)).filter
          (fun h => decide (h.label = L))).map (fun g => g.count)).sum : Nat) : Int) := by
  intro r hr
  have hrl : r.label = L := by
    simpa using List.of_mem_filter hr
  have hro : r ∈ orderedRows (groupJoinRows db vid) := List.mem_of_mem_filter hr
  unfold orderedRows at hro
  rw [List.mem_insertionSort] at hro
  obtain ⟨g, hg, hgl, hgc, hgp⟩ := of_mem_withPct_pct hro
  have hgL : g.label = L := by rw [← hgl, hrl]
  rw [hgp, hgc]
  congr 1
  unfold partTotal
  congr 2
  apply congrArg
  apply List.filter_congr
  intro h hh
  rw [decide_eq_decide]
  have hiff := groupRows_pkey_iff_label db vid hHP h hh g hg
  constructor
  · intro hp
    rw [← hgL]
    exact hiff.2 hp
  · intro hl
    exact hiff.1 (by rw [hl, hgL])

/-- C4, amended: provided group labels and window partition keys
determine each other over the vote's joined rows (each displayed group is
exactly one `group_code` partition — broken for example by two group
codes sharing a label; see the counterexample), every entry of
`get_group_voting_breakdown` has percentages summing to 100 percent up to
rounding: the sum of the reported hundredths deviates from 10000 by at
most 2 (half a hundredth per position, four positions). -/
theorem c4_group_percentages (db : Store) (vid : Int)
    (hH1 : ∀ g ∈ db.groups, ∀ g2 ∈ db.groups,
      g.label = g2.label → g.short_label = g2.short_label)
    (hH2 : ∀ g ∈ db.groups, g.label = "Non-attached" → g.short_label = "NI")
    (hHP : ∀ r ∈ groupJoinRows db vid, ∀ r2 ∈ groupJoinRows db vid,
      (r.label = r2.label ↔ r.pkey = r2.pkey))
    (v : Vote) (hv : db.votes.find? (fun x => decide (x.id = vid)) = some v) :
    ∃ d, get_group_voting_breakdown (Except.ok db) vid = Except.ok (.found d) ∧
      ∀ L e, alookup L d.group_breakdown = some e → |pctTotal e - 10000| ≤ 2 := by
  have hnd := orderedRows_labelpos_nodup db vid hH1 hH2
  simp only [get_group_voting_breakdown, hv]
  refine ⟨_, rfl, ?_⟩
  intro L e halo
  rw [buildBreakdown_lookup hnd L] at halo
  cases hcase : rowsFor L (orderedRows (groupJoinRows db vid)) with
  | nil =>
    rw [hcase] at halo
    cases halo
  | cons r0 rs =>
    rw [hcase] at halo
    have he := Option.some.inj halo
    have hpct : pctTotal e = ((r0 :: rs).map (fun r => r.pct)).sum := by
      rw [← he]
      unfold pctTotal
      rw [List.map_map]
      rfl
    set Tn : Nat := (((groupRows (groupJoinRows db vid)).filter
      (fun h => decide (h.label = L))).map (fun g => g.count)).sum with hTn
    have h1 : ((r0 :: rs).map (fun r => r.count)).sum = Tn := by
      rw [← hcase, hTn]
      exact rowsFor_counts_eq (groupJoinRows db vid) L
    have hall : ∀ r ∈ r0 :: rs, r.pct = round2h (r.count : Int) (Tn : Int) := by
      intro r hrm
      exact pct_eq_round2h_of_HP db vid hHP L r (by rw [hcase]; exact hrm)
    have hmapeq : (r0 :: rs).map (fun r => r.pct) =
        ((r0 :: rs).map (fun r => (r.count : Int))).map (fun c => round2h c (Tn : Int)) := by
      rw [List.map_map]
      exact List.map_congr_left (fun r hrm => hall r hrm)
    have hsum : ((r0 :: rs).map (fun r => (r.count : Int))).sum = ((Tn : Nat) : Int) := by
      rw [← h1]
      rw [show (r0 :: rs).map (fun r => (r.count : Int)) =
        (((r0 :: rs).map (fun r => r.count) : List Nat)).map (fun n : Nat => (n : Int)) by
          rw [List.map_map]
          rfl]
      exact (natCast_list_sum _).symm
    have hr0 : r0 ∈ rowsFor L (orderedRows (groupJoinRows db vid)) := by
      rw [hcase]
      exact List.mem_cons_self r0 rs
    have hr0o : r0 ∈ orderedRows (groupJoinRows db vid) := List.mem_of_mem_filter hr0
    have hr0w : r0 ∈ withPct (groupRows (groupJoinRows db vid)) := by
      unfold orderedRows at hr0o
      rw [List.mem_insertionSort] at hr0o
      exact hr0o
    obtain ⟨g, hg, _, hgc, _⟩ := of_mem_withPct_pct hr0w
    have hc : 0 < r0.count := by
      rw [hgc]
      exact groupRows_count_pos hg
    have hTpos : (0 : Int) < (Tn : Int) := by
      have h2 : 0 < Tn := by
        rw [← h1, List.map_cons, List.sum_cons]
        omega
      exact_mod_cast h2
    have hlen : ((r0 :: rs).map (fun r => (r.count : Int))).length ≤ 4 := by
      rw [List.length_map]
      have hsubnd : ((r0 :: rs).map (fun r => (r.label, r.pos))).Nodup := by
        rw [← hcase]
        refine List.Nodup.sublist ?_ hnd
        exact List.Sublist.map _ (List.filter_sublist _)
      have hconst : ∀ r ∈ r0 :: rs, r.label = L := by
        intro r hrm
        have hrm2 : r ∈ rowsFor L (orderedRows (groupJoinRows db vid)) := by
          rw [hcase]
          exact hrm
        simpa using List.of_mem_filter hrm2
      have hposnd := nodup_pos_of_nodup_pairs hsubnd hconst
      have hcard := List.Nodup.length_le_card hposnd
      rw [List.length_map] at hcard
      have hfc : Fintype.card Position = 4 := by decide
      omega
    rw [hpct, hmapeq]
    exact sum_round2h_bound _ _ hTpos hsum hlen

/-- C4, witness: the amended statement instantiated on a store with one
real group (voting FOR and AGAINST, 50 percent each) and one group-less
member vote (100 percent FOR of the sentinel partition). -/
theorem c4_witness :
    (∀ r ∈ groupJoinRows dbC4w 1, ∀ r2 ∈ groupJoinRows dbC4w 1,
      (r.label = r2.label ↔ r.pkey = r2.pkey)) ∧
      ∃ d, get_group_voting_breakdown (Except.ok dbC4w) 1 = Except.ok (.found d) ∧
        ∀ L e, alookup L d.group_breakdown = some e → |pctTotal e - 10000| ≤ 2 :=
  ⟨by decide,
    c4_group_percentages dbC4w 1 (by decide) (by decide) (by decide)
      (mkVote 1 "2024-01-01" 1 1) (by decide)⟩

/-- C4, counterexample: with two group codes sharing the label `"G"`,
the single `"G"` entry reports each of its two positions as 100 percent
of its own code's partition, so the percentages sum to 200 percent — far
outside any rounding error of 100. -/
theorem c4_counterexample :
    (groupBreakdownOf (get_group_voting_breakdown (Except.ok dbC4) 1)).map
        (fun p => (p.1, pctTotal p.2)) = [("G", 20000)] ∧
      ¬ ∀ p ∈ groupBreakdownOf (get_group_voting_breakdown (Except.ok dbC4) 1),
        |pctTotal p.2 - 10000| ≤ 2 :=
  ⟨by decide, by decide⟩

theorem contLe_total : ∀ v w, contLe v w ∨ contLe w v := by
  intro v w
  rcases lt_trichotomy (voteMarginPct v) (voteMarginPct w) with h | h | h
  · exact Or.inl (Or.inl h)
  · rcases le_total (voteMargin v) (voteMargin w) with h2 | h2
    · exact Or.inl (Or.inr ⟨h, h2⟩)
    · exact Or.inr (Or.inr ⟨h.symm, h2⟩)
  · exact Or.inr (Or.inl h)

theorem contLe_trans : ∀ v w x, contLe v w → contLe w x → contLe v x := by
  intro v w x h1 h2
  rcases h1 with h1 | ⟨h1, h1m⟩ <;> rcases h2 with h2 | ⟨h2, h2m⟩
  · exact Or.inl (lt_trans h1 h2)
  · exact Or.inl (h2 ▸ h1)
  · exact Or.inl (h1 ▸ h2)
  · exact Or.inr ⟨h1.trans h2, h1m.trans h2m⟩

/-- C2, amended: for every positive `n`, `get_controversial_votes(n)`
returns at most `n` votes, every returned vote has positive FOR and
AGAINST counts, and the returned list is sorted by the *reported*
`margin_percentage` — the relative margin rounded to two decimals by the
SQL, not the exact ratio of the spec formula — in non-decreasing order,
ties in the rounded value broken by the absolute margin non-decreasing. -/
theorem c2_controversial (db : Store) (n : Int) (hn : 0 < n) :
    ∃ d, get_controversial_votes (Except.ok db) n = Except.ok (.found d) ∧
      (d.controversial_votes.length : Int) ≤ n ∧
      (∀ r ∈ d.controversial_votes, 0 < r.votes_for ∧ 0 < r.votes_against) ∧
      List.Sorted outContLe d.controversial_votes := by
  haveI : IsTotal Vote contLe := ⟨contLe_total⟩
  haveI : IsTrans Vote contLe := ⟨fun a b c => contLe_trans a b c⟩
  refine ⟨_, rfl, ?_, ?_, ?_⟩
  · rw [List.length_map]
    exact length_sqlLimit_le n hn.le _
  · intro r hr
    rw [List.mem_map] at hr
    obtain ⟨v, hv, rfl⟩ := hr
    have hv2 := mem_sqlLimit hv
    rw [List.mem_insertionSort, List.mem_filter] at hv2
    have := hv2.2
    simp only [Bool.and_eq_true, decide_eq_true_eq] at this
    exact this
  · exact List.Pairwise.map _ (fun a b h => h)
      (sorted_sqlLimit_insertionSort contLe n _)

/-- C2, witness: the amended statement instantiated on a concrete store
with three votes and `n = 2`. -/
theorem c2_witness :
    (0 : Int) < 2 ∧
      ∃ d, get_controversial_votes (Except.ok dbC2w) 2 = Except.ok (.found d) ∧
        (d.controversial_votes.length : Int) ≤ 2 ∧
        (∀ r ∈ d.controversial_votes, 0 < r.votes_for ∧ 0 < r.votes_against) ∧
        List.Sorted outContLe d.controversial_votes :=
  ⟨by decide, c2_controversial dbC2w 2 (by decide)⟩

/-- C2, counterexample: the claim as stated sorts by the exact relative
margin.  On `dbC2` the code returns vote 2 (exact margin percentage 25,
absolute margin 2) before vote 1 (exact margin percentage
499900/19997 < 25, absolute margin 4999): both round to 25.00, so the SQL
orders them by the absolute-margin tie-break, and the returned list is
not sorted by the exact `margin_percentage` of the spec formula. -/
theorem c2_counterexample :
    ¬ List.Sorted specContLe (contRowsOf (get_controversial_votes (Except.ok dbC2) 10)) := by
  intro hs
  have he : contRowsOf (get_controversial_votes (Except.ok dbC2) 10) =
      [⟨2, "title", "2024-01-02", 5, 3, 0, 2, 2500, "ADOPTED"⟩,
       ⟨1, "title", "2024-01-01", 12498, 7499, 0, 4999, 2500, "ADOPTED"⟩] := by decide
  rw [he, List.sorted_cons] at hs
  have h2 := hs.1 ⟨1, "title", "2024-01-01", 12498, 7499, 0, 4999, 2500, "ADOPTED"⟩ (by simp)
  simp only [specContLe] at h2
  rcases h2 with h2 | ⟨h2, hm⟩
  · norm_num [exactMarginPct, abs_of_nonneg] at h2
  · norm_num [exactMarginPct, abs_of_nonneg] at h2

/-- C6, witness: on a store whose only vote has id 1, looking up vote
999999999 yields exactly the single-key error mapping of the spec
scenario. -/
theorem c6_witness :
    get_vote_details (Except.ok dbC6) 999999999 =
      Except.ok (.failure "Vote 999999999 not found") ∧
    get_group_voting_breakdown (Except.ok dbC6) 999999999 =
      Except.ok (.failure "Vote 999999999 not found") ∧
    get_country_voting_patterns (Except.ok dbC6) 999999999 =
      Except.ok (.failure "Vote 999999999 not found") := by
  have h := c6_not_found dbC6 999999999 (by decide)
  have hs : ("Vote " ++ toString (999999999 : Int) ++ " not found") =
      "Vote 999999999 not found" := by decide
  rw [hs] at h
  exact h

end Frateto
